import Mathlib

/-!
# Verification of the supply-signals pipeline

A shallow embedding, in Lean 4, of the parts of the `supply-signals`
repository that the checked claims are about:

* `shared/dedupe.py` — canonical-key fingerprinting (`_casefold_trim`,
  `_normalize_url`, `_pick_event_date`, `make_hash`) and the `SeenStore`
  persistence layer;
* `shared/datetime_utils.py` — tolerant timestamp parsing
  (`_normalize_candidate`, `parse_to_utc`, `to_iso_utc`);
* `normalize_enrich/timestamp_hardener.py` — the idempotent hardening pass;
* `signal_detect/__main__.py`, `rules_sec_pr.py`, `scorer.py` — the
  scoring + dedupe signal stage;
* `signal_detect/signal_fusion.py` — per-signal scoring and window fusion.

Python strings are sequences of Unicode code points; we model them as
`List ℕ` of code points (written `Str`).  The embedding covers the ASCII
fragment the repository's own data and tests exercise: `str.casefold` /
`str.lower` are modeled as ASCII lowercasing and `unicodedata.normalize
("NFKC", ·)` as the identity, both of which agree with CPython on ASCII
input.  Machine-independent integers are `ℤ`/`ℕ`; Python floats in the
fusion arithmetic are modeled as exact rationals `ℚ` (every concrete value
the claims mention is exactly representable, and the two products the
claims rely on, `70 * 1.2` and `80 * 0.85`, round to exactly `84.0` and
`68.0` in binary64 as well).  Wall-clock reads (`datetime.now`) are passed
in explicitly.  SHA-256 is implemented in full, so fingerprints are the
actual hex digests.
-/

/-- A Python string: a list of Unicode code points. -/
abbrev Str := List ℕ

/-- Convert a Lean string literal to its code-point list. -/
def str (s : String) : Str := s.data.map Char.toNat

/-- `\s` on the ASCII range: space, tab, newline, carriage return,
vertical tab, form feed (what `re.sub(r"\s+", …)` and `str.strip()`
treat as whitespace on ASCII text). -/
def isSpace (c : ℕ) : Bool :=
  c == 32 || c == 9 || c == 10 || c == 13 || c == 11 || c == 12

/-- ASCII lowercasing of one code point (`str.lower` / `str.casefold`
agree with this on ASCII). -/
def lowerChar (c : ℕ) : ℕ :=
  if 65 ≤ c ∧ c ≤ 90 then c + 32 else c

/-- `str.lower` on a string. -/
def lowerStr (s : Str) : Str := s.map lowerChar

/-- `str.casefold`: on the ASCII fragment modeled here it coincides with
`str.lower`. -/
def casefoldStr (s : Str) : Str := s.map lowerChar

/-- `str.lstrip()` (ASCII whitespace). -/
def lstrip (s : Str) : Str := s.dropWhile isSpace

/-- `str.strip()` (ASCII whitespace): drop from both ends. -/
def strip (s : Str) : Str := ((s.dropWhile isSpace).reverse.dropWhile isSpace).reverse

/-- Worker for `collapseWs`: `inRun` records whether the previous
character belonged to a whitespace run (in which case further whitespace
is dropped rather than replaced). -/
def collapseGo (inRun : Bool) : Str → Str
  | [] => []
  | c :: cs =>
    if isSpace c then
      if inRun then collapseGo true cs else 32 :: collapseGo true cs
    else c :: collapseGo false cs

/-- `re.sub(r"\s+", " ", s)`: replace every maximal whitespace run by a
single space. -/
def collapseWs (s : Str) : Str := collapseGo false s

/-- `unicodedata.normalize("NFKC", s)`: NFKC normalization, which is the
identity on the ASCII fragment modeled here. -/
def nfkc (s : Str) : Str := s

/-- `shared/dedupe.py::_casefold_trim`: NFKC-normalize, collapse
whitespace runs, strip, casefold; `None`/empty input gives `""`. -/
def casefoldTrim (s : Option Str) : Str :=
  match s with
  | none => []
  | some s => if s = [] then [] else casefoldStr (strip (collapseWs (nfkc s)))

example : casefoldTrim (some (str "  Hello   WORLD  ")) = str "hello world" := by decide
example : strip (str "  ab c ") = str "ab c" := by decide

/-! ## SHA-256 (`hashlib.sha256(...).hexdigest()`)

A complete executable SHA-256 over byte lists, with 32-bit words as
naturals reduced `% 2^32`. -/

/-- `2^32`, the word modulus. -/
def M32 : ℕ := 4294967296

/-- UTF-8 encoding of a code-point string (`str.encode("utf-8")`). -/
def utf8Encode : Str → List ℕ
  | [] => []
  | c :: cs =>
    (if c < 128 then [c]
     else if c < 2048 then [192 + c / 64, 128 + c % 64]
     else if c < 65536 then [224 + c / 4096, 128 + c / 64 % 64, 128 + c % 64]
     else [240 + c / 262144, 128 + c / 4096 % 64, 128 + c / 64 % 64, 128 + c % 64])
    ++ utf8Encode cs

/-- Right-rotation of a 32-bit word by `n` bits. -/
def rotr (n x : ℕ) : ℕ := (x / 2 ^ n + x % 2 ^ n * 2 ^ (32 - n)) % M32

/-- `Ch(e,f,g) = (e ∧ f) ⊕ (¬e ∧ g)`. -/
def shaCh (e f g : ℕ) : ℕ := (e &&& f) ^^^ ((4294967295 ^^^ e) &&& g)

/-- `Maj(a,b,c)`. -/
def shaMaj (a b c : ℕ) : ℕ := (a &&& b) ^^^ (a &&& c) ^^^ (b &&& c)

/-- `Σ0`. -/
def bsig0 (x : ℕ) : ℕ := rotr 2 x ^^^ rotr 13 x ^^^ rotr 22 x

/-- `Σ1`. -/
def bsig1 (x : ℕ) : ℕ := rotr 6 x ^^^ rotr 11 x ^^^ rotr 25 x

/-- `σ0`. -/
def ssig0 (x : ℕ) : ℕ := rotr 7 x ^^^ rotr 18 x ^^^ (x / 2 ^ 3)

/-- `σ1`. -/
def ssig1 (x : ℕ) : ℕ := rotr 17 x ^^^ rotr 19 x ^^^ (x / 2 ^ 10)

/-- The 64 SHA-256 round constants. -/
def shaK : List ℕ :=
  [1116352408, 1899447441, 3049323471, 3921009573, 961987163,
   1508970993, 2453635748, 2870763221, 3624381080, 310598401,
   607225278, 1426881987, 1925078388, 2162078206, 2614888103,
   3248222580, 3835390401, 4022224774, 264347078, 604807628,
   770255983, 1249150122, 1555081692, 1996064986, 2554220882,
   2821834349, 2952996808, 3210313671, 3336571891, 3584528711,
   113926993, 338241895, 666307205, 773529912, 1294757372,
   1396182291, 1695183700, 1986661051, 2177026350, 2456956037,
   2730485921, 2820302411, 3259730800, 3345764771, 3516065817,
   3600352804, 4094571909, 275423344, 430227734, 506948616,
   659060556, 883997877, 958139571, 1322822218, 1537002063,
   1747873779, 1955562222, 2024104815, 2227730452, 2361852424,
   2428436474, 2756734187, 3204031479, 3329325298]

/-- SHA-256 working state (eight 32-bit words). -/
structure SHAState where
  a : ℕ
  b : ℕ
  c : ℕ
  d : ℕ
  e : ℕ
  f : ℕ
  g : ℕ
  h : ℕ
deriving DecidableEq

/-- The SHA-256 initial hash value. -/
def shaH0 : SHAState :=
  ⟨1779033703, 3144134277, 1013904242, 2773480762,
   1359893119, 2600822924, 528734635, 1541459225⟩

/-- One SHA-256 compression round. -/
def shaRound (st : SHAState) (k w : ℕ) : SHAState :=
  let t1 := (st.h + bsig1 st.e + shaCh st.e st.f st.g + k + w) % M32
  let t2 := (bsig0 st.a + shaMaj st.a st.b st.c) % M32
  ⟨(t1 + t2) % M32, st.a, st.b, st.c, (st.d + t1) % M32, st.e, st.f, st.g⟩

/-- Pack bytes into big-endian 32-bit words. -/
def toWords : List ℕ → List ℕ
  | b0 :: b1 :: b2 :: b3 :: rest => (b0 * 16777216 + b1 * 65536 + b2 * 256 + b3) :: toWords rest
  | _ => []

/-- Extend the 16 message words to 64 (the message schedule); `n` is the
number of words still to generate, `acc` the words so far. -/
def extendW : ℕ → List ℕ → List ℕ
  | 0, acc => acc
  | n + 1, acc =>
    let t := (ssig1 (acc.getD (acc.length - 2) 0) + acc.getD (acc.length - 7) 0
              + ssig0 (acc.getD (acc.length - 15) 0) + acc.getD (acc.length - 16) 0) % M32
    extendW n (acc ++ [t])

/-- Compress one 64-byte block into the running hash. -/
def compressBlock (H : SHAState) (block : List ℕ) : SHAState :=
  let W := extendW 48 (toWords block)
  let st := (shaK.zip W).foldl (fun st kw => shaRound st kw.1 kw.2) H
  ⟨(H.a + st.a) % M32, (H.b + st.b) % M32, (H.c + st.c) % M32, (H.d + st.d) % M32,
   (H.e + st.e) % M32, (H.f + st.f) % M32, (H.g + st.g) % M32, (H.h + st.h) % M32⟩

/-- The 8-byte big-endian encoding of the bit length. -/
def lenBytes (n : ℕ) : List ℕ :=
  [n / 2 ^ 56 % 256, n / 2 ^ 48 % 256, n / 2 ^ 40 % 256, n / 2 ^ 32 % 256,
   n / 2 ^ 24 % 256, n / 2 ^ 16 % 256, n / 2 ^ 8 % 256, n % 256]

/-- SHA-256 padding: append `0x80`, zero-fill to 56 mod 64, append the
64-bit message bit length. -/
def padMsg (msg : List ℕ) : List ℕ :=
  msg ++ 128 :: List.replicate ((119 - msg.length % 64) % 64) 0 ++ lenBytes (8 * msg.length)

/-- Split into 64-byte chunks (`fuel` bounds the recursion and is
instantiated with the list length). -/
def chunks64 : ℕ → List ℕ → List (List ℕ)
  | 0, _ => []
  | n + 1, l => if l.isEmpty then [] else l.take 64 :: chunks64 n (l.drop 64)

/-- One hex digit (lowercase, as `hexdigest` produces). -/
def hexDigit (n : ℕ) : ℕ := if n < 10 then 48 + n else 87 + n

/-- Eight hex digits of a 32-bit word. -/
def hex8 (w : ℕ) : Str :=
  [hexDigit (w / 2 ^ 28 % 16), hexDigit (w / 2 ^ 24 % 16), hexDigit (w / 2 ^ 20 % 16),
   hexDigit (w / 2 ^ 16 % 16), hexDigit (w / 2 ^ 12 % 16), hexDigit (w / 2 ^ 8 % 16),
   hexDigit (w / 2 ^ 4 % 16), hexDigit (w % 16)]

/-- `hashlib.sha256(bytes).hexdigest()` as a code-point string. -/
def sha256hex (msg : List ℕ) : Str :=
  let padded := padMsg msg
  let H := (chunks64 padded.length padded).foldl compressBlock shaH0
  hex8 H.a ++ hex8 H.b ++ hex8 H.c ++ hex8 H.d ++ hex8 H.e ++ hex8 H.f ++ hex8 H.g ++ hex8 H.h

example : sha256hex (utf8Encode (str "abc")) =
    str "ba7816bf8f01cfea414140de5dae2223b00361a396177a9cb410ff61f20015ad" := by decide

/-! ## URL canonicalization (`shared/dedupe.py::_normalize_url` and the
`urllib.parse` functions it calls) -/

/-- Value of an ASCII hex digit, if any. -/
def hexVal (c : ℕ) : Option ℕ :=
  if 48 ≤ c ∧ c ≤ 57 then some (c - 48)
  else if 97 ≤ c ∧ c ≤ 102 then some (c - 87)
  else if 65 ≤ c ∧ c ≤ 70 then some (c - 55)
  else none

/-- `urllib.parse.unquote`: decode `%XX` escapes (an invalid escape is
kept literally).  Decoded bytes are taken as code points, which agrees
with CPython on the ASCII range. -/
def unquote : Str → Str
  | [] => []
  | 37 :: a :: b :: rest =>
    match hexVal a, hexVal b with
    | some x, some y => (16 * x + y) :: unquote rest
    | _, _ => 37 :: unquote (a :: b :: rest)
  | c :: cs => c :: unquote cs

/-- ASCII letter. -/
def isAlpha (c : ℕ) : Bool := (65 ≤ c && c ≤ 90) || (97 ≤ c && c ≤ 122)

/-- ASCII digit. -/
def isDigit (c : ℕ) : Bool := 48 ≤ c && c ≤ 57

/-- `urllib.parse.scheme_chars`: letters, digits, `+`, `-`, `.`. -/
def schemeChar (c : ℕ) : Bool := isAlpha c || isDigit c || c == 43 || c == 45 || c == 46

/-- Delimiters ending the netloc inside `_splitnetloc`: `/`, `?`, `#`. -/
def netlocEnd (c : ℕ) : Bool := c == 47 || c == 63 || c == 35

/-- `urllib.parse.urlsplit`.  Returns
`(scheme, netloc, path, query, fragment)`, or an error for the
`ValueError("Invalid IPv6 URL")` raised on a netloc containing one
bracket without its mate (the only exception `_normalize_url`'s inputs
can trigger; the bracketed-host validation of newer CPython is not
modeled).  Mirrors CPython: leading C0-control/space stripped, `\t\r\n`
removed, scheme split at the first `:` when the prefix is a valid scheme,
`//`-netloc up to `/?#`, then fragment split before query split. -/
def urlsplitE (url0 : Str) : Except Unit (Str × Str × Str × Str × Str) :=
  let url1 := (url0.dropWhile (fun c => decide (c ≤ 32))).filter
      (fun c => !(c == 9 || c == 10 || c == 13))
  let pre := url1.takeWhile (fun c => c ≠ 58)
  let (scheme, rest) :=
    if pre.length < url1.length ∧ pre ≠ [] ∧ isAlpha (pre.headD 0) ∧ pre.all schemeChar
    then (lowerStr pre, url1.drop (pre.length + 1))
    else ([], url1)
  let (netloc, rest2) :=
    if rest.take 2 = [47, 47]
    then ((rest.drop 2).takeWhile (fun c => !netlocEnd c),
          (rest.drop 2).dropWhile (fun c => !netlocEnd c))
    else ([], rest)
  if (91 ∈ netloc ∧ 93 ∉ netloc) ∨ (93 ∈ netloc ∧ 91 ∉ netloc) then .error ()
  else
    let (url2, fragment) :=
      if 35 ∈ rest2
      then (rest2.takeWhile (fun c => c ≠ 35), (rest2.dropWhile (fun c => c ≠ 35)).drop 1)
      else (rest2, [])
    let (path, query) :=
      if 63 ∈ url2
      then (url2.takeWhile (fun c => c ≠ 63), (url2.dropWhile (fun c => c ≠ 63)).drop 1)
      else (url2, [])
    .ok (scheme, netloc, path, query, fragment)

/-- `'+' → ' '` (the first step of `unquote_plus` inside `parse_qsl`). -/
def plusToSpace (s : Str) : Str := s.map (fun c => if c = 43 then 32 else c)

/-- `urllib.parse.parse_qsl(qs, keep_blank_values=True)`: split the query
on `&`, drop empty chunks, split each chunk at the first `=` (a chunk
without `=` gets a blank value), `+`-decode and percent-decode names and
values. -/
def parseQsl (qs : Str) : List (Str × Str) :=
  if qs = [] then []
  else (qs.splitOn 38).filterMap fun nv =>
    if nv = [] then none
    else
      let name := nv.takeWhile (fun c => c ≠ 61)
      let value := if name.length = nv.length then [] else nv.drop (name.length + 1)
      some (unquote (plusToSpace name), unquote (plusToSpace value))

/-- Characters `quote` never escapes: letters, digits, `_.-~`. -/
def alwaysSafe (c : ℕ) : Bool := isAlpha c || isDigit c || c == 95 || c == 46 || c == 45 || c == 126

/-- Uppercase hex digit (as `quote` produces). -/
def hexDigitUp (n : ℕ) : ℕ := if n < 10 then 48 + n else 55 + n

/-- `quote_plus` on one byte: safe bytes kept, space becomes `+`, the
rest become `%XX`. -/
def quoteByte (b : ℕ) : Str :=
  if alwaysSafe b then [b] else if b = 32 then [43] else [37, hexDigitUp (b / 16), hexDigitUp (b % 16)]

/-- `urllib.parse.quote_plus` (UTF-8 encode, then quote each byte). -/
def quotePlus (s : Str) : Str := (utf8Encode s).flatMap quoteByte

/-- `urllib.parse.urlencode(pairs, doseq=True)` on string-valued pairs:
`quote_plus(k) + "=" + quote_plus(v)` joined with `&`. -/
def urlencodePairs (ps : List (Str × Str)) : Str :=
  List.intercalate [38] (ps.map fun p => quotePlus p.1 ++ [61] ++ quotePlus p.2)

/-- `urllib.parse.urlunsplit`. -/
def urlunsplit (scheme netloc path query fragment : Str) : Str :=
  let url := path
  let url :=
    if netloc ≠ [] ∨ (url ≠ [] ∧ url.take 2 = [47, 47]) then
      (str "//") ++ netloc ++ (if url ≠ [] ∧ url.take 1 ≠ [47] then [47] ++ url else url)
    else url
  let url := if scheme ≠ [] then scheme ++ [58] ++ url else url
  let url := if query ≠ [] then url ++ [63] ++ query else url
  if fragment ≠ [] then url ++ [35] ++ fragment else url

/-- `shared/dedupe.py::_TRACKING_PARAMS`. -/
def trackingParams : List Str :=
  [str "gclid", str "fbclid", str "igshid", str "ref", str "ref_src"]

/-- Does a (casefolded) query-parameter name get dropped?  (`utm_*` or a
known tracker.) -/
def isTrackingKey (k : Str) : Bool :=
  let kLow := casefoldStr k
  kLow.take 4 == str "utm_" || trackingParams.contains kLow

/-- `shared/dedupe.py::_normalize_url`: percent-decode once, split,
lowercase scheme and netloc, strip one leading `www.`, drop the fragment,
drop tracking query parameters, drop a bare `/` path, reassemble.  On
`ValueError` it returns the (already percent-decoded) input stripped of
surrounding whitespace — `url.strip()` in the `except` branch. -/
def normalizeUrl (url : Option Str) : Str :=
  match url with
  | none => []
  | some u =>
    if u = [] then []
    else
      let uq := unquote u
      match urlsplitE uq with
      | .error _ => strip uq
      | .ok (scheme, netloc, path, query, _fragment) =>
        let scheme := lowerStr scheme
        let netloc := lowerStr netloc
        let netloc := if netloc.take 4 = str "www." then netloc.drop 4 else netloc
        let pairs := (parseQsl query).filter fun kv => !isTrackingKey kv.1
        let query := urlencodePairs pairs
        let path := if path = [47] then [] else path
        urlunsplit scheme netloc path query []

example : normalizeUrl (some (str "HTTPS://WWW.Example.com/news?utm_source=x&id=7&gclid=z#frag")) =
    str "https://example.com/news?id=7" := by decide
example : normalizeUrl (some (str "http://example.com/")) = str "http://example.com" := by decide
example : normalizeUrl (some (str "http://[AB")) = str "http://[AB" := by decide

/-! ## Datetime model (`datetime` / `zoneinfo` / `email.utils`)

An aware-or-naive Python `datetime` with whole-second precision (no
input the pipeline's claims touch carries sub-second fractions).  The
`tz` field is the UTC offset in minutes; `none` means naive. -/

/-- A Python `datetime` down to seconds, with optional fixed UTC offset
in minutes. -/
structure PyDateTime where
  year : ℤ
  month : ℤ
  day : ℤ
  hour : ℤ
  minute : ℤ
  second : ℤ
  tz : Option ℤ
deriving DecidableEq

/-- Days from 1970-01-01 of a civil date (Howard Hinnant's algorithm). -/
def daysFromCivil (y m d : ℤ) : ℤ :=
  let y := y - (if m ≤ 2 then 1 else 0)
  let era := Int.fdiv y 400
  let yoe := y - era * 400
  let mp := m + (if m > 2 then -3 else 9)
  let doy := (153 * mp + 2) / 5 + d - 1
  let doe := yoe * 365 + yoe / 4 - yoe / 100 + doy
  era * 146097 + doe - 719468

/-- Civil date from days since 1970-01-01 (inverse of `daysFromCivil`). -/
def civilFromDays (z0 : ℤ) : ℤ × ℤ × ℤ :=
  let z := z0 + 719468
  let era := Int.fdiv z 146097
  let doe := z - era * 146097
  let yoe := (doe - doe / 1460 + doe / 36524 - doe / 146096) / 365
  let y := yoe + era * 400
  let doy := doe - (365 * yoe + yoe / 4 - yoe / 100)
  let mp := (5 * doy + 2) / 153
  let d := doy - (153 * mp + 2) / 5 + 1
  let m := mp + (if mp < 10 then 3 else -9)
  (y + (if m ≤ 2 then 1 else 0), m, d)

/-- Seconds since the epoch of the datetime's wall-clock components
(ignoring its offset). -/
def wallSecs (dt : PyDateTime) : ℤ :=
  daysFromCivil dt.year dt.month dt.day * 86400 + dt.hour * 3600 + dt.minute * 60 + dt.second

/-- Seconds since the epoch in UTC (a naive datetime is read as UTC, as
every call site has already attached a zone). -/
def utcSecs (dt : PyDateTime) : ℤ := wallSecs dt - (dt.tz.getD 0) * 60

/-- The UTC-aware datetime at a given epoch second
(`datetime.fromtimestamp(t, timezone.utc)`). -/
def dtFromEpoch (t : ℤ) : PyDateTime :=
  let days := Int.fdiv t 86400
  let secs := t - days * 86400
  let c := civilFromDays days
  ⟨c.1, c.2.1, c.2.2, secs / 3600, secs / 60 % 60, secs % 60, some 0⟩

/-- `dt.astimezone(timezone.utc)` for an aware datetime (a naive one is
read as UTC; no call site passes one). -/
def astimezoneUtc (dt : PyDateTime) : PyDateTime := dtFromEpoch (utcSecs dt)

/-- Leap year. -/
def isLeap (y : ℤ) : Bool := y % 4 == 0 && (y % 100 != 0 || y % 400 == 0)

/-- Days in a month. -/
def daysInMonth (y m : ℤ) : ℤ :=
  if m = 2 then (if isLeap y then 29 else 28)
  else if m = 4 ∨ m = 6 ∨ m = 9 ∨ m = 11 then 30 else 31

/-- Numeric value of a digit code point. -/
def dv (c : ℕ) : ℤ := (c : ℤ) - 48

/-- Trailing timezone designator of an ISO string:
`some none` = absent (naive), `some (some off)` = offset in minutes,
`none` = malformed tail.  Accepts `Z`, `±HH`, `±HH:MM`, `±HHMM` as
CPython 3.11 `fromisoformat` does (lowercase `z` is rejected). -/
def parseTzTail (l : Str) : Option (Option ℤ) :=
  match l with
  | [] => some none
  | [90] => some (some 0)
  | sign :: t =>
    if sign = 43 ∨ sign = 45 then
      let mk : ℤ → ℤ → Option (Option ℤ) := fun hh mm =>
        if hh ≤ 23 ∧ mm ≤ 59 then
          some (some ((if sign = 43 then 1 else -1) * (hh * 60 + mm)))
        else none
      match t with
      | [h1, h2] => if isDigit h1 && isDigit h2 then mk (dv h1 * 10 + dv h2) 0 else none
      | [h1, h2, 58, m1, m2] =>
        if isDigit h1 && isDigit h2 && isDigit m1 && isDigit m2 then
          mk (dv h1 * 10 + dv h2) (dv m1 * 10 + dv m2)
        else none
      | [h1, h2, m1, m2] =>
        if isDigit h1 && isDigit h2 && isDigit m1 && isDigit m2 then
          mk (dv h1 * 10 + dv h2) (dv m1 * 10 + dv m2)
        else none
      | _ => none
    else none

/-- The `HH[:MM[:SS]][tz]` part of an ISO string. -/
def parseIsoTime (l : Str) : Option (ℤ × ℤ × ℤ × Option ℤ) :=
  match l with
  | h1 :: h2 :: rest =>
    if isDigit h1 && isDigit h2 then
      let hh := dv h1 * 10 + dv h2
      match rest with
      | 58 :: m1 :: m2 :: rest2 =>
        if isDigit m1 && isDigit m2 then
          let mm := dv m1 * 10 + dv m2
          match rest2 with
          | 58 :: s1 :: s2 :: rest3 =>
            if isDigit s1 && isDigit s2 then
              (parseTzTail rest3).map fun tz => (hh, mm, dv s1 * 10 + dv s2, tz)
            else none
          | _ => (parseTzTail rest2).map fun tz => (hh, mm, 0, tz)
        else none
      | _ => (parseTzTail rest).map fun tz => (hh, 0, 0, tz)
    else none
  | _ => none

/-- `datetime.fromisoformat` restricted to
`YYYY-MM-DD[<sep>HH[:MM[:SS]][Z|±HH[:]MM|±HH]]` with full range
validation — the fragment of CPython 3.11's grammar the pipeline's
inputs exercise (no fractional seconds, basic-format dates or week
dates). -/
def fromisoformat (s : Str) : Option PyDateTime :=
  match s with
  | y1 :: y2 :: y3 :: y4 :: 45 :: m1 :: m2 :: 45 :: d1 :: d2 :: rest =>
    if isDigit y1 && isDigit y2 && isDigit y3 && isDigit y4 &&
       isDigit m1 && isDigit m2 && isDigit d1 && isDigit d2 then
      let y := dv y1 * 1000 + dv y2 * 100 + dv y3 * 10 + dv y4
      let m := dv m1 * 10 + dv m2
      let d := dv d1 * 10 + dv d2
      if 1 ≤ y ∧ 1 ≤ m ∧ m ≤ 12 ∧ 1 ≤ d ∧ d ≤ daysInMonth y m then
        match rest with
        | [] => some ⟨y, m, d, 0, 0, 0, none⟩
        | _sep :: timeRest =>
          match parseIsoTime timeRest with
          | some (hh, mm, ss, tz) =>
            if hh ≤ 23 ∧ mm ≤ 59 ∧ ss ≤ 59 then some ⟨y, m, d, hh, mm, ss, tz⟩ else none
          | none => none
      else none
    else none
  | _ => none

/-- Month abbreviations `Jan..Dec` as code-point strings. -/
def monthAbbrevs : List Str :=
  [str "Jan", str "Feb", str "Mar", str "Apr", str "May", str "Jun",
   str "Jul", str "Aug", str "Sep", str "Oct", str "Nov", str "Dec"]

/-- Weekday abbreviations `Mon..Sun`. -/
def dayAbbrevs : List Str :=
  [str "Mon", str "Tue", str "Wed", str "Thu", str "Fri", str "Sat", str "Sun"]

/-- Look up a 3-letter month name (1-based result). -/
def monthOfAbbrev (s : Str) : Option ℤ :=
  match (monthAbbrevs.indexOf? s) with
  | some i => some ((i : ℤ) + 1)
  | none => none

/-- Parse a 1- or 2-digit day token. -/
def parseDay (l : Str) : Option ℤ :=
  match l with
  | [a] => if isDigit a then some (dv a) else none
  | [a, b] => if isDigit a && isDigit b then some (dv a * 10 + dv b) else none
  | _ => none

/-- Parse a 4-digit year token. -/
def parseYear4 (l : Str) : Option ℤ :=
  match l with
  | [a, b, c, d] =>
    if isDigit a && isDigit b && isDigit c && isDigit d then
      some (dv a * 1000 + dv b * 100 + dv c * 10 + dv d)
    else none
  | _ => none

/-- Parse an `HH:MM:SS` token. -/
def parseHMS (l : Str) : Option (ℤ × ℤ × ℤ) :=
  match l with
  | [h1, h2, 58, m1, m2, 58, s1, s2] =>
    if isDigit h1 && isDigit h2 && isDigit m1 && isDigit m2 && isDigit s1 && isDigit s2 then
      let hh := dv h1 * 10 + dv h2
      let mm := dv m1 * 10 + dv m2
      let ss := dv s1 * 10 + dv s2
      if hh ≤ 23 ∧ mm ≤ 59 ∧ ss ≤ 59 then some (hh, mm, ss) else none
    else none
  | _ => none

/-- A `±HHMM` numeric zone, in minutes. -/
def parseNumZone (l : Str) : Option ℤ :=
  match l with
  | [sign, h1, h2, m1, m2] =>
    if (sign = 43 ∨ sign = 45) ∧ (isDigit h1 && isDigit h2 && isDigit m1 && isDigit m2) then
      some ((if sign = 43 then 1 else -1) * ((dv h1 * 10 + dv h2) * 60 + dv m1 * 10 + dv m2))
    else none
  | _ => none

/-- The RFC-822 zone of `email.utils`: `-0000` means naive, the common
zone names map to fixed offsets, otherwise `±HHMM`.
`some none` = naive, `some (some off)` = offset, `none` = unrecognized. -/
def parseRfcZone (l : Str) : Option (Option ℤ) :=
  if l = str "-0000" then some none
  else if l = str "GMT" ∨ l = str "UT" ∨ l = str "UTC" then some (some 0)
  else if l = str "EST" then some (some (-300))
  else if l = str "EDT" then some (some (-240))
  else if l = str "CST" then some (some (-360))
  else if l = str "CDT" then some (some (-300))
  else if l = str "MST" then some (some (-420))
  else if l = str "MDT" then some (some (-360))
  else if l = str "PST" then some (some (-480))
  else if l = str "PDT" then some (some (-420))
  else (parseNumZone l).map some

/-- `email.utils.parsedate_to_datetime`, restricted to the day-first
`[Www, ]DD Mon YYYY HH:MM:SS ZONE` shape the feeds produce (a leading
token ending in `,` is discarded without validation, as CPython's
`_parsedate_tz` does). -/
def parsedateToDatetime (s : Str) : Option PyDateTime :=
  let toks := ((strip s).splitOn 32).filter (fun t => t ≠ [])
  let toks :=
    match toks with
    | t :: rest => if t.getLast? = some 44 then rest else toks
    | _ => toks
  match toks with
  | [ddTok, monTok, yTok, timeTok, zoneTok] =>
    match parseDay ddTok, monthOfAbbrev monTok, parseYear4 yTok,
          parseHMS timeTok, parseRfcZone zoneTok with
    | some d, some m, some y, some (hh, mm, ss), some tz =>
      if 1 ≤ d ∧ d ≤ daysInMonth y m then some ⟨y, m, d, hh, mm, ss, tz⟩ else none
    | _, _, _, _, _ => none
  | _ => none

/-- The `%z` directive of `strptime`: `Z`, `±HHMM` or `±HH:MM` (named
zones such as `GMT` do NOT match). -/
def parsePercentZ (l : Str) : Option ℤ :=
  if l = [90] then some 0
  else
    match l with
    | [sign, h1, h2, 58, m1, m2] =>
      if (sign = 43 ∨ sign = 45) ∧ (isDigit h1 && isDigit h2 && isDigit m1 && isDigit m2) then
        some ((if sign = 43 then 1 else -1) * ((dv h1 * 10 + dv h2) * 60 + dv m1 * 10 + dv m2))
      else none
    | _ => parseNumZone l

/-- `datetime.strptime(s, "%a, %d %b %Y %H:%M:%S %z")` (with weekday) or
`"%d %b %Y %H:%M:%S %z"` (without), the two RSS fallback formats of
`shared/dedupe.py::_parse_datetime_utc`. -/
def strptimeRfc822 (withWeekday : Bool) (s : Str) : Option PyDateTime :=
  let toks := (s.splitOn 32).filter (fun t => t ≠ [])
  let toks :=
    if withWeekday then
      match toks with
      | t :: rest =>
        if t.length = 4 ∧ t.getLast? = some 44 ∧ dayAbbrevs.contains (t.take 3)
        then some rest else none
      | _ => none
    else some toks
  match toks with
  | none => none
  | some toks =>
    match toks with
    | [ddTok, monTok, yTok, timeTok, zoneTok] =>
      match parseDay ddTok, monthOfAbbrev monTok, parseYear4 yTok,
            parseHMS timeTok, parsePercentZ zoneTok with
      | some d, some m, some y, some (hh, mm, ss), some off =>
        if 1 ≤ d ∧ d ≤ daysInMonth y m then some ⟨y, m, d, hh, mm, ss, some off⟩ else none
      | _, _, _, _, _ => none
    | _ => none

/-- `zoneinfo.ZoneInfo(name).utcoffset` at a naive local time, in
minutes: `UTC`, and `America/New_York` under the post-2007 US DST rule
(second Sunday of March 02:00 to first Sunday of November 02:00);
`none` models `ZoneInfo` raising for an unknown key. -/
def zoneOffsetMinutes (tzName : Str) (lt : PyDateTime) : Option ℤ :=
  if tzName = str "UTC" then some 0
  else if tzName = str "America/New_York" then
    let y := lt.year
    let dowMar1 := (daysFromCivil y 3 1 + 4) % 7
    let secondSunMar := 1 + (7 - dowMar1) % 7 + 7
    let dowNov1 := (daysFromCivil y 11 1 + 4) % 7
    let firstSunNov := 1 + (7 - dowNov1) % 7
    let t := wallSecs lt
    let dstStart := daysFromCivil y 3 secondSunMar * 86400 + 2 * 3600
    let dstEnd := daysFromCivil y 11 firstSunNov * 86400 + 2 * 3600
    some (if dstStart ≤ t ∧ t < dstEnd then -240 else -300)
  else none

/-! ## `shared/datetime_utils.py` -/

/-- Does a string start with `\d{4}-\d{2}-\d{2}` (as a 10-element list)? -/
def isDate10 (l : Str) : Bool :=
  match l with
  | [a, b, c, d, 45, e, f, 45, g, h] =>
    isDigit a && isDigit b && isDigit c && isDigit d && isDigit e && isDigit f &&
    isDigit g && isDigit h
  | _ => false

/-- Does a string start with `\d{2}:\d{2}`? -/
def hasTimeMin (l : Str) : Bool :=
  match l with
  | a :: b :: 58 :: c :: d :: _ => isDigit a && isDigit b && isDigit c && isDigit d
  | _ => false

/-- Does a string start with `\d{4}-\d{2}-\d{2}T\d{2}:\d{2}` (the
16-character prefix of the seconds-insertion rewrite)? -/
def isDateTHM (l : Str) : Bool :=
  match l with
  | y1 :: y2 :: y3 :: y4 :: 45 :: m1 :: m2 :: 45 :: d1 :: d2 :: 84 :: a :: b :: 58 :: c :: d :: _ =>
    isDigit y1 && isDigit y2 && isDigit y3 && isDigit y4 && isDigit m1 && isDigit m2 &&
    isDigit d1 && isDigit d2 && isDigit a && isDigit b && isDigit c && isDigit d
  | _ => false

/-- The lookahead `(?=(Z|[+-]\d{2}:?\d{2}|\s|$))` of the
seconds-insertion rewrite. -/
def lookaheadTz : Str → Bool
  | [] => true
  | 90 :: _ => true
  | sign :: h1 :: h2 :: 58 :: m1 :: m2 :: _ =>
    if (sign = 43 ∨ sign = 45) then isDigit h1 && isDigit h2 && isDigit m1 && isDigit m2
    else isSpace sign
  | sign :: h1 :: h2 :: m1 :: m2 :: _ =>
    if (sign = 43 ∨ sign = 45) then isDigit h1 && isDigit h2 && isDigit m1 && isDigit m2
    else isSpace sign
  | c :: _ => isSpace c

/-- `datetime_utils._normalize_candidate`: the six sequential rewrites
(strip; lowercase trailing `z` upper-cased; `YYYY/MM/DD` dashes; first
date–time space to `T`; `:00` seconds inserted before a zone designator,
whitespace or end; trailing `±HHMM` (with any preceding whitespace)
colon-ized; trailing `Z` to `+00:00`). -/
def normalizeCandidate (s0 : Str) : Str :=
  let s := strip s0
  -- `if s.endswith("z"): s = s[:-1] + "Z"`
  let s := if s.getLast? = some 122 then s.dropLast ++ [90] else s
  -- `re.sub(r"^(\d{4})/(\d{2})/(\d{2})", r"\1-\2-\3", s)`
  let s :=
    match s with
    | a :: b :: c :: d :: 47 :: e :: f :: 47 :: g :: h :: rest =>
      if isDigit a && isDigit b && isDigit c && isDigit d && isDigit e && isDigit f &&
         isDigit g && isDigit h
      then a :: b :: c :: d :: 45 :: e :: f :: 45 :: g :: h :: rest
      else s
    | _ => s
  -- `re.sub(r"^(\d{4}-\d{2}-\d{2})\s+(\d{2}:\d{2}(?::\d{2})?)", r"\1T\2", s, count=1)`
  let s :=
    if isDate10 (s.take 10) then
      let rest := s.drop 10
      let sps := rest.takeWhile isSpace
      if sps ≠ [] ∧ hasTimeMin (rest.drop sps.length)
      then s.take 10 ++ 84 :: rest.drop sps.length
      else s
    else s
  -- `re.sub(r"^(\d{4}-\d{2}-\d{2}T\d{2}:\d{2})(?=(Z|[+-]\d{2}:?\d{2}|\s|$))", r"\1:00", s, count=1)`
  let s :=
    if isDateTHM s ∧ lookaheadTz (s.drop 16)
    then s.take 16 ++ 58 :: 48 :: 48 :: s.drop 16 else s
  -- `re.sub(r"\s*([+-]\d{2})(\d{2})$", r"\1:\2", s)`
  let s :=
    if 5 ≤ s.length then
      match s.drop (s.length - 5) with
      | [sign, h1, h2, m1, m2] =>
        if (sign = 43 ∨ sign = 45) ∧ (isDigit h1 && isDigit h2 && isDigit m1 && isDigit m2)
        then ((s.take (s.length - 5)).reverse.dropWhile isSpace).reverse
              ++ [sign, h1, h2, 58, m1, m2]
        else s
      | _ => s
    else s
  -- `if s.endswith("Z"): s = s[:-1] + "+00:00"`
  if s.getLast? = some 90 then s.dropLast ++ str "+00:00" else s

/-- The errors `parse_to_utc` raises (`ValueError` messages). -/
inductive DtErr where
  | missing
  | unparseable
  | outOfRange
deriving DecidableEq

/-- Decidable equality for `Except`, for evaluating concrete results. -/
instance {e a : Type} [DecidableEq e] [DecidableEq a] : DecidableEq (Except e a) :=
  fun x y =>
    match x, y with
    | .ok u, .ok v => if h : u = v then isTrue (by rw [h]) else isFalse (by simp [h])
    | .error u, .error v => if h : u = v then isTrue (by rw [h]) else isFalse (by simp [h])
    | .ok _, .error _ => isFalse (by simp)
    | .error _, .ok _ => isFalse (by simp)

/-- `_MIN_DT = 2000-01-01 UTC` as epoch seconds. -/
def minDtSecs : ℤ := daysFromCivil 2000 1 1 * 86400

/-- `_MAX_DT = 2100-01-01 UTC` as epoch seconds. -/
def maxDtSecs : ℤ := daysFromCivil 2100 1 1 * 86400

/-- `datetime_utils.parse_to_utc`: normalize, try ISO, fall back to
RFC-2822 on the RAW string, localize a naive result with `naive_tz`
(unknown zone keys degrade to UTC), convert to UTC, enforce the
`[2000-01-01, 2100-01-01)` sanity window. -/
def parseToUtc (dtStr : Option Str) (naiveTz : Option Str) : Except DtErr PyDateTime :=
  match dtStr with
  | none => .error .missing
  | some s0 =>
    let raw := strip s0
    if raw = [] then .error .missing
    else
      let s := normalizeCandidate raw
      let dt? :=
        match fromisoformat s with
        | some dt => some dt
        | none => parsedateToDatetime raw
      match dt? with
      | none => .error .unparseable
      | some dt =>
        let dt :=
          if dt.tz = none then
            match naiveTz with
            | some tzName =>
              match zoneOffsetMinutes tzName dt with
              | some off => { dt with tz := some off }
              | none => { dt with tz := some 0 }
            | none => { dt with tz := some 0 }
          else dt
        let dtUtc := astimezoneUtc dt
        if minDtSecs ≤ utcSecs dtUtc ∧ utcSecs dtUtc < maxDtSecs then .ok dtUtc
        else .error .outOfRange

/-- Two-digit zero-padded decimal. -/
def pad2 (n : ℤ) : Str := [48 + n.toNat / 10 % 10, 48 + n.toNat % 10]

/-- Four-digit zero-padded decimal. -/
def pad4 (n : ℤ) : Str :=
  [48 + n.toNat / 1000 % 10, 48 + n.toNat / 100 % 10, 48 + n.toNat / 10 % 10, 48 + n.toNat % 10]

/-- `datetime_utils.to_iso_utc`: convert to UTC (naive read as UTC),
drop sub-seconds, format `YYYY-MM-DDTHH:MM:SSZ`. -/
def toIsoUtc (dt : PyDateTime) : Str :=
  let u := if dt.tz = none then { dt with tz := some 0 } else astimezoneUtc dt
  pad4 u.year ++ 45 :: pad2 u.month ++ 45 :: pad2 u.day ++ 84 :: pad2 u.hour ++
    58 :: pad2 u.minute ++ 58 :: pad2 u.second ++ [90]

/-- `datetime_utils.STRICT_Z_ISO_PATTERN` as a Boolean matcher:
`^\d{4}-\d{2}-\d{2}T\d{2}:\d{2}:\d{2}Z$`. -/
def strictZIso (l : Str) : Bool :=
  match l with
  | [y1, y2, y3, y4, 45, m1, m2, 45, d1, d2, 84, h1, h2, 58, i1, i2, 58, s1, s2, 90] =>
    isDigit y1 && isDigit y2 && isDigit y3 && isDigit y4 && isDigit m1 && isDigit m2 &&
    isDigit d1 && isDigit d2 && isDigit h1 && isDigit h2 && isDigit i1 && isDigit i2 &&
    isDigit s1 && isDigit s2
  | _ => false

example : toIsoUtc ⟨2025, 10, 5, 2, 20, 0, some (-240)⟩ = str "2025-10-05T06:20:00Z" := by decide
example : (parseToUtc (some (str "2025-10-05 02:20")) (some (str "America/New_York"))).map toIsoUtc
    = .ok (str "2025-10-05T06:20:00Z") := by decide
example : (parseToUtc (some (str "Sun, 05 Oct 2025 06:20:00 GMT")) none).map toIsoUtc
    = .ok (str "2025-10-05T06:20:00Z") := by decide
example : (parseToUtc (some (str "2025/10/05 06:20:00 +0000")) none).map toIsoUtc
    = .ok (str "2025-10-05T06:20:00Z") := by decide
example : (parseToUtc (some (str "2025-10-05T06:20Z")) none).map toIsoUtc
    = .ok (str "2025-10-05T06:20:00Z") := by decide

/-! ## `shared/dedupe.py`: event fingerprinting and the seen-store -/

/-- Python's `a or b` on optional strings: the first operand wins only
when it is truthy (present and non-empty). -/
def pyOr (a b : Option Str) : Option Str :=
  match a with
  | some s => if s = [] then b else some s
  | none => b

/-- Replace the first space by `T` (`s.replace(" ", "T", 1)`). -/
def replaceFirstSpaceT (s : Str) : Str :=
  s.takeWhile (fun c => c ≠ 32) ++
    (if 32 ∈ s then 84 :: (s.dropWhile (fun c => c ≠ 32)).drop 1 else [])

/-- `dedupe._parse_datetime_utc`: strip, turn a trailing `Z`/`z` into
`+00:00`, turn the first space into `T` when no `T` is present, try
`fromisoformat` (naive read as UTC), else the two RFC-822 `strptime`
formats, converting to UTC. -/
def parseDatetimeUtcD (s0 : Str) : Option PyDateTime :=
  if s0 = [] then none
  else
    let s := strip s0
    let s := if s.getLast? = some 90 ∨ s.getLast? = some 122 then s.dropLast ++ str "+00:00" else s
    let s := if 32 ∈ s ∧ 84 ∉ s then replaceFirstSpaceT s else s
    match fromisoformat s with
    | some dt => some (astimezoneUtc (if dt.tz = none then { dt with tz := some 0 } else dt))
    | none =>
      match strptimeRfc822 true s with
      | some dt => some (astimezoneUtc dt)
      | none =>
        match strptimeRfc822 false s with
        | some dt => some (astimezoneUtc dt)
        | none => none

/-- The normalized-event dictionary: the fields the dedupe subsystem and
the signal stage read.  Absent keys are `none`; `urls` is `[]` when the
key is absent or not a non-empty list. -/
structure Event where
  source : Option Str := none
  source_name : Option Str := none
  title : Option Str := none
  headline : Option Str := none
  first_url : Option Str := none
  urls : List Str := []
  url : Option Str := none
  event_datetime_utc : Option Str := none
  filing_datetime : Option Str := none
  pubDate : Option Str := none
  body : Option Str := none
  event_kind : Option Str := none
  event_subtype : Option Str := none
deriving DecidableEq

/-- `dedupe._pick_event_date`: the first truthy of `event_datetime_utc`,
`filing_datetime`, `pubDate`, parsed; `now` (the wall clock, passed
explicitly) when nothing is present or the chosen value fails to parse. -/
def pickEventDate (e : Event) (now : PyDateTime) : PyDateTime :=
  match pyOr (pyOr e.event_datetime_utc e.filing_datetime) e.pubDate with
  | some raw =>
    if raw ≠ [] then
      match parseDatetimeUtcD raw with
      | some dt => dt
      | none => now
    else now
  | none => now

/-- `dt.date().isoformat()`. -/
def dateIso (dt : PyDateTime) : Str := pad4 dt.year ++ 45 :: pad2 dt.month ++ 45 :: pad2 dt.day

/-- The canonical key of an event: canonicalized source, title,
normalized first URL, UTC date string. -/
structure CanonKey where
  source : Str
  title : Str
  url : Str
  date : Str
deriving DecidableEq

/-- The canonical-key components `make_hash` computes. -/
def canonKey (e : Event) (now : PyDateTime) : CanonKey :=
  { source := casefoldTrim (pyOr e.source e.source_name)
    title := casefoldTrim (pyOr e.title e.headline)
    url := normalizeUrl (pyOr (pyOr e.first_url e.urls.head?) e.url)
    date := dateIso (pickEventDate e now) }

/-- The `source|title|url|date` string `make_hash` hashes. -/
def keyStr (k : CanonKey) : Str := k.source ++ 124 :: k.title ++ 124 :: k.url ++ 124 :: k.date

/-- `dedupe.make_hash`: the SHA-256 hex fingerprint together with the
debug key. -/
def makeHash (e : Event) (now : PyDateTime) : Str × CanonKey :=
  let k := canonKey e now
  (sha256hex (utf8Encode (keyStr k)), k)

/-- One line of the seen-store JSONL state.  The file stores the two
datetimes as `isoformat()` strings of aware UTC datetimes, which
`_parse_datetime_utc` round-trips exactly; the embedding keeps the
datetime values. -/
structure SeenEntry where
  hash : Str
  firstSeen : PyDateTime
  lastSeen : PyDateTime
  key : CanonKey
deriving DecidableEq

/-- Dictionary insert with overwrite (`self._active[h] = rec`). -/
def dictInsert (m : List SeenEntry) (e : SeenEntry) : List SeenEntry :=
  m.filter (fun x => x.hash ≠ e.hash) ++ [e]

/-- `SeenStore._load_active`: keep a loaded line only when
`now - first_seen < ttl` (TTL in seconds, i.e. `ttl_days * 86400`);
later lines for the same hash overwrite earlier ones. -/
def loadActive (file : List SeenEntry) (ttlSecs : ℤ) (now : PyDateTime) : List SeenEntry :=
  file.foldl
    (fun m e => if utcSecs now - utcSecs e.firstSeen < ttlSecs then dictInsert m e else m) []

/-- The in-memory and on-disk state of a `SeenStore`. -/
structure StoreState where
  file : List SeenEntry
  active : List SeenEntry
deriving DecidableEq

/-- Constructing a `SeenStore` over a state file. -/
def mkStore (file : List SeenEntry) (ttlDays : ℤ) (now : PyDateTime) : StoreState :=
  ⟨file, loadActive file (ttlDays * 86400) now⟩

/-- `SeenStore.seen`. -/
def seen (st : StoreState) (h : Str) : Bool := st.active.any (fun e => e.hash = h)

/-- `SeenStore.record`: create or touch the in-memory record, and append
the payload (existing `first_seen_utc`, updated `last_seen_utc`) to the
file. -/
def record (st : StoreState) (h : Str) (key : CanonKey) (now : PyDateTime) : StoreState :=
  match st.active.find? (fun e => e.hash = h) with
  | none =>
    let e : SeenEntry := ⟨h, now, now, key⟩
    ⟨st.file ++ [e], dictInsert st.active e⟩
  | some rec =>
    let e : SeenEntry := { rec with lastSeen := now }
    ⟨st.file ++ [e], dictInsert st.active e⟩

example :
    (makeHash { title := some (str "Hello World"), source := some (str "Reuters"),
                url := some (str "https://www.example.com/a?utm_x=1"),
                event_datetime_utc := some (str "2025-10-04T00:00:00Z") }
      ⟨2025, 10, 7, 3, 0, 0, some 0⟩).2
    = ⟨str "reuters", str "hello world", str "https://example.com/a", str "2025-10-04"⟩ := by
  decide

/-! ## `signal_detect`: rules, scorer and the scoring+dedupe stage -/

/-- ASCII uppercasing of one code point. -/
def upperChar (c : ℕ) : ℕ := if 97 ≤ c ∧ c ≤ 122 then c - 32 else c

/-- `str.upper()`. -/
def upperStr (s : Str) : Str := s.map upperChar

/-- `rules_sec_pr.KEYWORDS` in dict order: `(tag, keyword list)`. -/
def keywordTable : List (Str × List Str) :=
  [(str "buyback",
    [str "repurchase", str "share repurchase", str "buyback", str "authorization to repurchase",
     str "repurchase program", str "share buyback"]),
   (str "dividend",
    [str "dividend", str "increases dividend", str "raises dividend", str "special dividend"]),
   (str "guidance_up",
    [str "raises guidance", str "updates guidance upward", str "upward revision",
     str "increase guidance", str "guidance raised"]),
   (str "guidance_down",
    [str "lowers guidance", str "downward revision", str "cuts guidance",
     str "reduce guidance", str "guidance lowered"]),
   (str "cfo_resign",
    [str "chief financial officer", str "cfo", str "resigns", str "resignation", str "steps down"]),
   (str "ceo_resign",
    [str "chief executive officer", str "ceo", str "resigns", str "resignation", str "steps down"])]

/-- Python's `needle in hay` substring test. -/
def containsSub (n : Str) : Str → Bool
  | [] => n.isEmpty
  | c :: rest => n.isPrefixOf (c :: rest) || containsSub n rest

/-- `rules_sec_pr.hit_tags`: case-insensitive substring matching, one
hit per tag, tags in table order. -/
def hitTags (text : Str) : List Str :=
  if text = [] then []
  else
    let t := lowerStr text
    keywordTable.filterMap fun tk => if tk.2.any (fun k => containsSub k t) then some tk.1 else none

/-- `scorer.TAG_WEIGHTS.get(h, 1)`. -/
def tagWeight (h : Str) : ℤ :=
  if h = str "buyback" then 3
  else if h = str "dividend" then 2
  else if h = str "guidance_up" then 3
  else if h = str "guidance_down" then 2
  else if h = str "cfo_resign" then 3
  else if h = str "ceo_resign" then 4
  else 1

/-- `scorer.score_hits`: tag weights plus the SEC / 8-K/6-K priors. -/
def scoreHits (hits : List Str) (eventKind eventSubtype : Option Str) : ℤ :=
  (hits.map tagWeight).sum
  + (if upperStr ((eventKind.getD [])) = str "SEC" then 1 else 0)
  + (if upperStr ((eventSubtype.getD [])) = str "8-K" ∨ upperStr ((eventSubtype.getD [])) = str "6-K"
     then 1 else 0)

/-- `" ".join(filter(None, [d.get("title"), d.get("body")]))`. -/
def stageText (e : Event) : Str :=
  List.intercalate [32]
    (([e.title, e.body].filterMap id).filter (fun s => s ≠ []))

/-- One emitted signal line of the scoring stage: the event with its
score and rule hits. -/
structure SigLine where
  event : Event
  score : ℤ
  rule_hits : List Str
deriving DecidableEq

/-- Process one input line of `signal_detect/__main__.py::main` (no
watchlist): score, threshold-gate, dedupe-check, emit and record. -/
def stageStep (threshold : ℤ) (useDedupe : Bool) (now : PyDateTime)
    (acc : List SigLine × StoreState) (e : Event) : List SigLine × StoreState :=
  let (outs, st) := acc
  let hits := hitTags (stageText e)
  let s := scoreHits hits e.event_kind e.event_subtype
  if s ≥ threshold ∧ hits ≠ [] then
    let hk := makeHash e now
    if useDedupe ∧ seen st hk.1 then (outs, st)
    else
      let st' := if useDedupe then record st hk.1 hk.2 now else st
      (outs ++ [⟨e, s, hits⟩], st')
  else (outs, st)

/-- The scoring+dedupe stage over one normalized file: emitted signal
lines and the updated store. -/
def runStage (threshold : ℤ) (useDedupe : Bool) (now : PyDateTime)
    (events : List Event) (st : StoreState) : List SigLine × StoreState :=
  events.foldl (stageStep threshold useDedupe now) ([], st)

/-! ## `signal_detect/signal_fusion.py` -/

/-- A signal dictionary: the fields `score_signal` and `fuse_signals`
read.  Numeric fields default to `0` as `signal.get(k, 0)` does. -/
structure Signal where
  signal_type : Option Str := none
  source : Option Str := none
  sentiment : Option Str := none
  num_insiders : ℤ := 0
  event_kind : Option Str := none
  buzz_score : ℤ := 0
  sentiment_score : ℤ := 0
  score : ℤ := 0
  ticker : Option Str := none
  issuer_ticker : Option Str := none
  event_datetime : Option Str := none
  event_datetime_utc : Option Str := none
  cluster_start_date : Option Str := none
deriving DecidableEq

/-- The `(base_score, weight, sentiment)` triple `score_signal`
returns.  Python floats are modeled as exact rationals. -/
structure ScoreTriple where
  base_score : ℚ
  weight : ℚ
  sentiment : ℚ
deriving DecidableEq

/-- `signal_fusion.score_signal`. -/
def scoreSignal (sig : Signal) : ScoreTriple :=
  if sig.signal_type = some (str "insider_cluster") then
    let cs := (sig.sentiment).getD (str "MIXED")
    let bsw : ℚ × ℚ × ℚ :=
      if cs = str "STRONG_BULLISH" then (85, 1, 2)
      else if cs = str "BULLISH" then (70, 7/10, 3/2)
      else if cs = str "BEARISH" then (30, -7/10, 3/2)
      else (50, 0, 1)
    { base_score := bsw.1, sentiment := bsw.2.1,
      weight := bsw.2.2 * (1 + (min (sig.num_insiders - 3) 5 : ℤ) * (1/10)) }
  else if sig.source = some (str "reddit") ∧ sig.event_kind = some (str "social_sentiment") then
    { base_score := (min (40 + Int.fdiv sig.buzz_score 2) 80 : ℤ)
      sentiment := if sig.sentiment_score > 20 then 3/5
                   else if sig.sentiment_score < -20 then -(3/5) else 0
      weight := if sig.buzz_score > 90 then 6/5 else 4/5 }
  else if sig.source = some (str "sec_edgar") ∨ sig.source = some (str "SEC") then
    if sig.score ≥ 8 then ⟨80, 9/5, 4/5⟩
    else if sig.score ≥ 5 then ⟨65, 13/10, 1/2⟩
    else if sig.score ≥ 3 then ⟨55, 1, 3/10⟩
    else ⟨45, 4/5, 0⟩
  else ⟨50, 1, 0⟩

/-- `round` half-to-even to an integer (Python's `round`). -/
def roundHalfEven (x : ℚ) : ℤ :=
  let f := ⌊x⌋
  let r := x - f
  if r < 1/2 then f else if 1/2 < r then f + 1 else if f % 2 = 0 then f else f + 1

/-- Python's `round(x, 1)`. -/
def round1 (x : ℚ) : ℚ := (roundHalfEven (x * 10) : ℚ) / 10

/-- Python's `round(x, 2)`. -/
def round2 (x : ℚ) : ℚ := (roundHalfEven (x * 100) : ℚ) / 100

/-- The fused output of one window (the fields of the `fusion` dict the
claims mention). -/
structure Fusion where
  ticker : Str
  conviction_score : ℚ
  conviction_level : Str
  net_sentiment : ℚ
  alignment : Str
  num_signals : ℕ
deriving DecidableEq

/-- The aggregation half of `signal_fusion.fuse_window`, applied to the
already-scored triples (the source computes `scored =
[score_signal(sig) …]` first; `fuseWindow` below composes the two). -/
def fuseScored (ticker : Str) (scored : List ScoreTriple) : Fusion :=
  let totalWeight := (scored.map (fun s => s.weight)).sum
  let weightedScore :=
    if totalWeight > 0 then (scored.map (fun s => s.base_score * s.weight)).sum / totalWeight
    else 50
  let netSentiment :=
    if totalWeight > 0 then (scored.map (fun s => s.sentiment * s.weight)).sum / totalWeight
    else 0
  let sentiments := scored.map (fun s => s.sentiment)
  let aligned := sentiments.all (fun s => s ≥ 0) || sentiments.all (fun s => s ≤ 0)
  let alignment := if aligned then str "aligned" else str "conflicted"
  let ws := if aligned ∧ scored.length > 1 then min (weightedScore * (6/5)) 100 else weightedScore
  let ws := if ¬aligned then ws * (17/20) else ws
  let level :=
    if ws ≥ 80 then str "HIGH"
    else if ws ≥ 65 then str "MEDIUM"
    else if ws ≥ 50 then str "LOW"
    else str "NEUTRAL"
  { ticker := ticker, conviction_score := round1 ws, conviction_level := level,
    net_sentiment := round2 netSentiment, alignment := alignment,
    num_signals := scored.length }

/-- `signal_fusion.fuse_window` (window bounds omitted: they are only
echoed into the output). -/
def fuseWindow (ticker : Str) (signals : List Signal) : Fusion :=
  fuseScored ticker (signals.map scoreSignal)

/-- The greedy forward sweep of `fuse_signals` over one ticker's
time-sorted signals, abstracted over the parsed timestamp `τ` (seconds):
anchor on the first remaining signal, take the run of signals with
`τ s ≤ τ anchor + W`, consume it as one window, resume after it.  The
fuel argument (instantiated with the list length) makes the recursion
structural; one unit is consumed per window. -/
def sweepGo {α : Type} (τ : α → ℤ) : ℕ → ℤ → List α → List (List α)
  | 0, _, _ => []
  | _, _, [] => []
  | f + 1, W, t :: ts =>
    let w := (t :: ts).takeWhile (fun u => decide (τ u ≤ τ t + W))
    if w.isEmpty then sweepGo τ f W (t :: ts)
    else w :: sweepGo τ f W ((t :: ts).drop w.length)

/-- The window sweep (`fuse_signals`' inner `while` loop). -/
def sweep {α : Type} (τ : α → ℤ) (W : ℤ) (ts : List α) : List (List α) :=
  sweepGo τ ts.length W ts

/-- One ticker's portion of `fuse_signals`: one fused output per swept
window (`fuse_window` always returns a truthy dict). -/
def fuseTicker (τ : Signal → ℤ) (W : ℤ) (ticker : Str) (sigs : List Signal) : List Fusion :=
  (sweep τ W sigs).map (fuseWindow ticker)

example : sweep id 48 [0, 10, 50, 120, 130] = [[0, 10], [50], [120, 130]] := by decide

/-! ## `normalize_enrich/timestamp_hardener.py` -/

/-- The three `_env` lookups of `_source_defaults`
(`SEC_DEFAULT_TZ`/`PR_DEFAULT_TZ`/`HARDEN_TZ_FALLBACK`), with their
defaults. -/
structure HardenEnv where
  secDefaultTz : Str := str "America/New_York"
  prDefaultTz : Str := str "UTC"
  fallbackTz : Str := str "UTC"

/-- `timestamp_hardener._source_defaults`. -/
def sourceDefaults (env : HardenEnv) (source : Str) : Str :=
  if source = str "sec" then env.secDefaultTz
  else if source = str "pr" then env.prDefaultTz
  else env.fallbackTz

/-- A normalized record: the fields the hardening pass reads or writes.
The metric counters (`totals`) are omitted; they do not feed back into
the record. -/
structure Rec where
  source : Option Str := none
  filing_datetime : Option Str := none
  acceptance_datetime : Option Str := none
  published_at : Option Str := none
  pubDate : Option Str := none
  published : Option Str := none
  updated : Option Str := none
  lastBuildDate : Option Str := none
  ingested_at_utc : Option Str := none
  event_datetime_utc : Option Str := none
  timestamp_source : Option Str := none
  timestamp_backfilled : Option Bool := none
  timestamp_error : Option Str := none
deriving DecidableEq

/-- Python truthiness of an optional string. -/
def truthy (o : Option Str) : Bool :=
  match o with
  | some s => !s.isEmpty
  | none => false

/-- `timestamp_hardener._candidate_fields`, with each field name paired
with its accessor. -/
def candidateFields (source : Str) : List (Str × (Rec → Option Str)) :=
  if source = str "sec" then
    [(str "filing_datetime", Rec.filing_datetime),
     (str "acceptance_datetime", Rec.acceptance_datetime),
     (str "published_at", Rec.published_at)]
  else if source = str "pr" then
    [(str "pubDate", Rec.pubDate), (str "published", Rec.published),
     (str "updated", Rec.updated), (str "lastBuildDate", Rec.lastBuildDate)]
  else
    [(str "published_at", Rec.published_at), (str "updated", Rec.updated),
     (str "pubDate", Rec.pubDate), (str "published", Rec.published)]

/-- `timestamp_hardener._already_strict`. -/
def alreadyStrict (rec : Rec) : Bool :=
  match rec.event_datetime_utc with
  | some v => strictZIso v
  | none => false

/-- The candidate-field loop of `harden_record`: first parseable truthy
candidate wins; otherwise the LAST parse error is reported (each
failure overwrites `last_error`). -/
def candLoop (rec : Rec) (tz : Str) (lastErr : Option DtErr) :
    List (Str × (Rec → Option Str)) → Except (Option DtErr) (Str × PyDateTime)
  | [] => .error lastErr
  | fg :: rest =>
    if truthy (fg.2 rec) then
      match parseToUtc (fg.2 rec) (some tz) with
      | .ok dt => .ok (fg.1, dt)
      | .error e => candLoop rec tz (some e) rest
    else candLoop rec tz lastErr rest

/-- `timestamp_hardener.harden_record` (early `return`s are encoded as
the `.error` arm of an `Except Rec Rec` and unwrapped at each stage). -/
def hardenRecord (env : HardenEnv) (rec : Rec) : Rec :=
  if alreadyStrict rec then rec
  else
    let source := lowerStr (strip (rec.source.getD []))
    let fields := candidateFields source
    let tz := sourceDefaults env source
    let hasAny := fields.any (fun fg => truthy (fg.2 rec))
    let step1 : Except Rec Rec :=
      if hasAny then
        match candLoop rec tz none fields with
        | .ok nd =>
          .error { rec with
                   event_datetime_utc := some (toIsoUtc nd.2),
                   timestamp_source := some nd.1,
                   timestamp_backfilled := some false }
        | .error lastErr =>
          let msg := if lastErr = some DtErr.outOfRange then str "out_of_range"
                     else str "unparseable"
          .ok { rec with timestamp_error := some msg }
      else .ok rec
    match step1 with
    | .error ret => ret
    | .ok out =>
      let step2 : Except Rec Rec :=
        if truthy rec.ingested_at_utc then
          match parseToUtc rec.ingested_at_utc (some (str "UTC")) with
          | .ok dt =>
            .error { out with
                     event_datetime_utc := some (toIsoUtc dt),
                     timestamp_source := some (str "ingested_at_utc"),
                     timestamp_backfilled := some true }
          | .error _ => .ok { out with timestamp_error := some (str "unparseable") }
        else .ok out
      match step2 with
      | .error ret => ret
      | .ok out2 =>
        if ¬hasAny then { out2 with timestamp_error := some (str "missing") } else out2

/-- The record transformation `process_dir` applies to one parsed file:
every record is hardened in place (serialization is faithful, so the
file contents are determined by this list). -/
def processRecords (env : HardenEnv) (recs : List Rec) : List Rec :=
  recs.map (hardenRecord env)

example :
    (hardenRecord {} { source := some (str "pr"),
                       pubDate := some (str "Sun, 05 Oct 2025 06:20:00 GMT") }).event_datetime_utc
    = some (str "2025-10-05T06:20:00Z") := by decide
example :
    hardenRecord {} { source := some (str "pr"), pubDate := some (str "garbage") }
    = { source := some (str "pr"), pubDate := some (str "garbage"),
        timestamp_error := some (str "unparseable") } := by decide

/-- A conservative host-character class: letters, digits, dot, hyphen. -/
def isHostChar (c : ℕ) : Bool := isAlpha c || isDigit c || c == 46 || c == 45

/-- A conservative path-character class: letters, digits, slash, dot,
hyphen, underscore, tilde. -/
def isPathChar (c : ℕ) : Bool :=
  isAlpha c || isDigit c || c == 47 || c == 46 || c == 45 || c == 95 || c == 126

/-- A well-formed query token (name or value): only always-safe bytes,
so quoting and unquoting are the identity. -/
def qtokWf (t : Str) : Prop := ∀ c ∈ t, alwaysSafe c = true

/-- `k1=v1&k2=v2&…`. -/
def buildQuery (ps : List (Str × Str)) : Str :=
  List.intercalate [38] (ps.map fun p => p.1 ++ 61 :: p.2)

/-- `scheme://host<path>?<query>` from components. -/
def buildUrl (scheme host path q : Str) : Str :=
  scheme ++ 58 :: 47 :: 47 :: host ++ path ++ (if q = [] then [] else 63 :: q)

/-- The pair well-formedness used by the query roundtrips. -/
def pairsWf (ps : List (Str × Str)) : Prop := ∀ kv ∈ ps, qtokWf kv.1 ∧ qtokWf kv.2

/-! # Theorems -/

/-- C8: `to_iso_utc(parse_to_utc(s)) == "2025-10-05T06:20:00Z"` for the
six spec inputs: strict Zulu ISO, `-04:00` offset, naive date-time with
the `America/New_York` hint, RFC-2822 with `GMT`, slash-date with
space-separated `+0000` offset, and minute-precision Zulu ISO. -/
theorem timestamp_roundtrip_c8 :
    (parseToUtc (some (str "2025-10-05T06:20:00Z")) none).map toIsoUtc
      = .ok (str "2025-10-05T06:20:00Z") ∧
    (parseToUtc (some (str "2025-10-05T02:20:00-04:00")) none).map toIsoUtc
      = .ok (str "2025-10-05T06:20:00Z") ∧
    (parseToUtc (some (str "2025-10-05 02:20")) (some (str "America/New_York"))).map toIsoUtc
      = .ok (str "2025-10-05T06:20:00Z") ∧
    (parseToUtc (some (str "Sun, 05 Oct 2025 06:20:00 GMT")) none).map toIsoUtc
      = .ok (str "2025-10-05T06:20:00Z") ∧
    (parseToUtc (some (str "2025/10/05 06:20:00 +0000")) none).map toIsoUtc
      = .ok (str "2025-10-05T06:20:00Z") ∧
    (parseToUtc (some (str "2025-10-05T06:20Z")) none).map toIsoUtc
      = .ok (str "2025-10-05T06:20:00Z") := by
  refine ⟨by decide, by decide, by decide, by decide, by decide, by decide⟩

/-- C2: the conviction score is the weight-weighted mean of base scores,
adjusted by `×1.2` capped at 100 when aligned with more than one signal,
`×0.85` when conflicted, and left as the plain mean for single-signal
windows (never boosted); concretely, two aligned signals with base 70 and
weight 1 fuse to 84.0/"aligned", and an (80,1,+0.8) vs (80,1,-0.8) pair
fuses to conflicted conviction 68.0 at level MEDIUM. -/
theorem fusion_conviction_c2 :
    (∀ (tkr : Str) (scored : List ScoreTriple),
       0 < (scored.map (fun s => s.weight)).sum →
       (((scored.map (fun s => s.sentiment)).all (fun s => s ≥ 0)
           || (scored.map (fun s => s.sentiment)).all (fun s => s ≤ 0)) = true
             ∧ 1 < scored.length →
          (fuseScored tkr scored).conviction_score
            = round1 (min ((scored.map (fun s => s.base_score * s.weight)).sum
                            / (scored.map (fun s => s.weight)).sum * (6/5)) 100)) ∧
       (((scored.map (fun s => s.sentiment)).all (fun s => s ≥ 0)
           || (scored.map (fun s => s.sentiment)).all (fun s => s ≤ 0)) = false →
          (fuseScored tkr scored).conviction_score
            = round1 ((scored.map (fun s => s.base_score * s.weight)).sum
                       / (scored.map (fun s => s.weight)).sum * (17/20))) ∧
       (scored.length = 1 →
          (fuseScored tkr scored).conviction_score
            = round1 ((scored.map (fun s => s.base_score * s.weight)).sum
                       / (scored.map (fun s => s.weight)).sum))) ∧
    (∀ (tkr : Str) (s1 s2 : ℚ), 0 < s1 → 0 < s2 →
       (fuseScored tkr [⟨70, 1, s1⟩, ⟨70, 1, s2⟩]).conviction_score = 84 ∧
       (fuseScored tkr [⟨70, 1, s1⟩, ⟨70, 1, s2⟩]).alignment = str "aligned") ∧
    ((fuseScored (str "T") [⟨80, 1, 4/5⟩, ⟨80, 1, -(4/5)⟩]).alignment = str "conflicted" ∧
     (fuseScored (str "T") [⟨80, 1, 4/5⟩, ⟨80, 1, -(4/5)⟩]).conviction_score = 68 ∧
     (fuseScored (str "T") [⟨80, 1, 4/5⟩, ⟨80, 1, -(4/5)⟩]).conviction_level = str "MEDIUM") := by
  refine ⟨?_, ?_,
    by norm_num [fuseScored], by norm_num [fuseScored, round1, roundHalfEven],
    by norm_num [fuseScored]⟩
  · intro tkr scored hw
    refine ⟨?_, ?_, ?_⟩
    · rintro ⟨ha, hlen⟩
      simp [fuseScored, ha, hw, hlen]
    · intro ha
      simp [fuseScored, ha, hw]
    · intro hlen
      match scored, hlen with
      | [s], _ =>
        simp only [List.map_cons, List.map_nil, List.sum_cons, List.sum_nil, add_zero] at hw
        have : (s.sentiment ≥ 0) ∨ (s.sentiment ≤ 0) := le_total 0 s.sentiment |>.imp id id
        rcases this with h | h <;> simp [fuseScored, h, hw]
  · intro tkr s1 s2 h1 h2
    have e1 : decide (s1 ≥ 0) = true := decide_eq_true (le_of_lt h1)
    have e2 : decide (s2 ≥ 0) = true := decide_eq_true (le_of_lt h2)
    constructor
    · simp [fuseScored, e1, e2]
      norm_num [round1, roundHalfEven]
    · simp [fuseScored, e1, e2]

/-- Witness for C2 at sentiments `+1, +1`. -/
theorem fusion_conviction_c2_witness :
    (fuseScored (str "T") [⟨70, 1, 1⟩, ⟨70, 1, 1⟩]).conviction_score = 84 ∧
    (fuseScored (str "T") [⟨70, 1, 1⟩, ⟨70, 1, 1⟩]).alignment = str "aligned" :=
  fusion_conviction_c2.2.1 (str "T") 1 1 one_pos one_pos

/-- C3 (failing input): for an `insider_cluster` signal with
`STRONG_BULLISH` sentiment and `num_insiders = 8`, `score_signal`
returns weight `2.0 * (1 + 0.1*min(8-3,5)) = 3.0`, outside the
documented `[0.5, 2.0]` weight range (the function's own docstring says
`weight: importance multiplier (0.5-2.0)`). -/
theorem score_signal_weight_overflow_c3 :
    (scoreSignal { signal_type := some (str "insider_cluster"),
                   sentiment := some (str "STRONG_BULLISH"),
                   num_insiders := 8 }).weight = 3 ∧
    ¬((scoreSignal { signal_type := some (str "insider_cluster"),
                     sentiment := some (str "STRONG_BULLISH"),
                     num_insiders := 8 }).weight ≤ 2) := by
  constructor
  · norm_num [scoreSignal]
  · norm_num [scoreSignal]

/-- C10 (counterexample): an event whose `event_datetime_utc` is
unparseable but whose `pubDate` IS present and parseable ("at least one
of the three fields present and parseable", as the claim requires)
still hashes differently on different UTC days: the `or`-chain commits
to the first truthy field and never falls through to `pubDate`. -/
theorem make_hash_unstable_counterexample_c10 :
    (parseDatetimeUtcD (str "2025-10-04T00:00:00Z")).isSome = true ∧
    makeHash { event_datetime_utc := some (str "garbage"),
               pubDate := some (str "2025-10-04T00:00:00Z") }
        ⟨2025, 10, 6, 0, 0, 0, some 0⟩
      ≠ makeHash { event_datetime_utc := some (str "garbage"),
                   pubDate := some (str "2025-10-04T00:00:00Z") }
          ⟨2025, 10, 7, 0, 0, 0, some 0⟩ := by
  constructor
  · decide
  · decide

/-- C10 (amended): `make_hash` is deterministic exactly when the FIRST
truthy field of the priority chain `event_datetime_utc → filing_datetime
→ pubDate` parses: then the result is independent of the wall clock;
otherwise the key's date is the current UTC date, so hashing the same
event on different UTC calendar days yields different keys and hence
different `(hash, key)` pairs. -/
theorem make_hash_determinism_c10 :
    (∀ (e : Event) (now1 now2 : PyDateTime) (raw : Str) (dt : PyDateTime),
       pyOr (pyOr e.event_datetime_utc e.filing_datetime) e.pubDate = some raw →
       parseDatetimeUtcD raw = some dt →
       makeHash e now1 = makeHash e now2) ∧
    (∀ (e : Event) (now : PyDateTime),
       (∀ raw, pyOr (pyOr e.event_datetime_utc e.filing_datetime) e.pubDate = some raw →
         parseDatetimeUtcD raw = none) →
       (makeHash e now).2.date = dateIso now) ∧
    (∀ (e : Event) (now1 now2 : PyDateTime),
       (∀ raw, pyOr (pyOr e.event_datetime_utc e.filing_datetime) e.pubDate = some raw →
         parseDatetimeUtcD raw = none) →
       dateIso now1 ≠ dateIso now2 →
       makeHash e now1 ≠ makeHash e now2) := by
  have hpick : ∀ (e : Event) (now : PyDateTime),
      (∀ raw, pyOr (pyOr e.event_datetime_utc e.filing_datetime) e.pubDate = some raw →
        parseDatetimeUtcD raw = none) →
      pickEventDate e now = now := by
    intro e now hfb
    unfold pickEventDate
    cases h : pyOr (pyOr e.event_datetime_utc e.filing_datetime) e.pubDate with
    | none => rfl
    | some raw =>
      by_cases hr : raw = []
      · simp [hr]
      · simp [hr, hfb raw h]
  refine ⟨?_, ?_, ?_⟩
  · intro e now1 now2 raw dt hchain hparse
    have hr : raw ≠ [] := by
      intro h
      rw [h] at hparse
      simp [parseDatetimeUtcD] at hparse
    have : ∀ now, pickEventDate e now = dt := by
      intro now
      unfold pickEventDate
      rw [hchain]
      simp [hr, hparse]
    unfold makeHash canonKey
    rw [this now1, this now2]
  · intro e now hfb
    unfold makeHash canonKey
    simp [hpick e now hfb]
  · intro e now1 now2 hfb hd heq
    have h1 : (makeHash e now1).2.date = dateIso now1 := by
      unfold makeHash canonKey
      simp [hpick e now1 hfb]
    have h2 : (makeHash e now2).2.date = dateIso now2 := by
      unfold makeHash canonKey
      simp [hpick e now2 hfb]
    exact hd (h1 ▸ h2 ▸ congrArg (fun p => p.2.date) heq)

/-- Witness for C10 (amended), instantiating the deterministic branch at
a concrete parseable event and two different wall-clock days. -/
theorem make_hash_determinism_c10_witness :
    makeHash { event_datetime_utc := some (str "2025-10-04T00:00:00Z") }
        ⟨2025, 10, 6, 0, 0, 0, some 0⟩
      = makeHash { event_datetime_utc := some (str "2025-10-04T00:00:00Z") }
          ⟨2025, 10, 7, 0, 0, 0, some 0⟩ :=
  make_hash_determinism_c10.1 _ _ _ (str "2025-10-04T00:00:00Z")
    ⟨2025, 10, 4, 0, 0, 0, some 0⟩ (by decide) (by decide)

/-- C9 (counterexample): on `"http://[AB"` (mismatched IPv6 bracket),
`urlsplit` raises, and `_normalize_url` returns `url.strip()` — the
percent-decoded input merely stripped of surrounding whitespace — which
differs from `canon_text` of the raw input (`_casefold_trim` would also
lowercase it). -/
theorem url_fallback_counterexample_c9 :
    urlsplitE (unquote (str "http://[AB")) = .error () ∧
    normalizeUrl (some (str "http://[AB")) = str "http://[AB" ∧
    normalizeUrl (some (str "http://[AB")) ≠ casefoldTrim (some (str "http://[AB")) := by
  refine ⟨by decide, by decide, by decide⟩

/-- C9 (amended): URL canonicalization is total by construction — the
embedding of `_normalize_url` is a total function in which the only
exception `urlsplit` can raise (the mismatched-bracket `ValueError`)
surfaces as the `.error` branch — and whenever that exception occurs the
function returns the percent-decoded input stripped of surrounding
whitespace (`url.strip()` in the `except` arm), not `canon_text` of it. -/
theorem url_fallback_c9 :
    ∀ u : Str, urlsplitE (unquote u) = .error () →
      normalizeUrl (some u) = strip (unquote u) := by
  intro u h
  by_cases hu : u = []
  · rw [hu] at h
    simp [unquote, urlsplitE] at h
  · unfold normalizeUrl
    simp only [hu, if_false]
    rw [h]

/-- Witness for C9 (amended) at the mismatched-bracket input. -/
theorem url_fallback_c9_witness :
    normalizeUrl (some (str "http://[AB")) = strip (unquote (str "http://[AB")) :=
  url_fallback_c9 (str "http://[AB") (by decide)

/-- C5: recording a fresh fingerprint and reconstructing the store from
the backing file with the default 7-day TTL within the TTL window yields
`seen = true`; a fresh store with TTL 0 over any file with
non-future entries yields `seen = false` for every fingerprint; and in
general a loaded entry is active only when
`now - first_seen < TTL` held at load time. -/
theorem seen_store_persistence_c5 :
    (∀ (st : StoreState) (fp : Str) (key : CanonKey) (tRec tLoad : PyDateTime),
       seen st fp = false →
       utcSecs tRec ≤ utcSecs tLoad →
       utcSecs tLoad - utcSecs tRec < 7 * 86400 →
       seen (mkStore (record st fp key tRec).file 7 tLoad) fp = true) ∧
    (∀ (file : List SeenEntry) (fp : Str) (tLoad : PyDateTime),
       (∀ e ∈ file, utcSecs e.firstSeen ≤ utcSecs tLoad) →
       seen (mkStore file 0 tLoad) fp = false) ∧
    (∀ (file : List SeenEntry) (ttlSecs : ℤ) (now : PyDateTime) (e : SeenEntry),
       e ∈ loadActive file ttlSecs now →
       utcSecs now - utcSecs e.firstSeen < ttlSecs) := by
  have loadActive_inv : ∀ (file : List SeenEntry) (ttlSecs : ℤ) (now : PyDateTime)
      (acc : List SeenEntry),
      (∀ x ∈ acc, utcSecs now - utcSecs x.firstSeen < ttlSecs) →
      ∀ e ∈ file.foldl
        (fun m e => if utcSecs now - utcSecs e.firstSeen < ttlSecs then dictInsert m e else m) acc,
        utcSecs now - utcSecs e.firstSeen < ttlSecs := by
    intro file ttlSecs now
    induction file with
    | nil => intro acc hacc e he; exact hacc e he
    | cons a rest ih =>
      intro acc hacc e he
      simp only [List.foldl_cons] at he
      by_cases hc : utcSecs now - utcSecs a.firstSeen < ttlSecs
      · rw [if_pos hc] at he
        refine ih (dictInsert acc a) ?_ e he
        intro x hx
        rcases List.mem_append.mp hx with hx | hx
        · exact hacc x (List.mem_of_mem_filter hx)
        · rcases List.mem_singleton.mp hx with rfl
          exact hc
      · rw [if_neg hc] at he
        exact ih acc hacc e he
  refine ⟨?_, ?_, ?_⟩
  · intro st fp key tRec tLoad hfresh hle hwin
    have hall : ∀ x ∈ st.active, ¬ x.hash = fp := by simpa [seen] using hfresh
    have hfind : st.active.find? (fun e => decide (e.hash = fp)) = none := by
      apply List.find?_eq_none.mpr
      intro x hx
      simpa using hall x hx
    unfold record
    rw [hfind]
    simp only [mkStore, seen, loadActive, List.foldl_append]
    rw [List.foldl_cons]
    simp only [List.foldl_nil]
    rw [if_pos (by simpa using hwin)]
    simp [dictInsert]
  · intro file fp tLoad hpast
    have : loadActive file 0 tLoad = [] := by
      unfold loadActive
      induction file with
      | nil => rfl
      | cons a rest ih =>
        rw [List.foldl_cons]
        rw [if_neg (by have := hpast a (by simp); omega)]
        exact ih (fun e he => hpast e (by simp [he]))
    simp [mkStore, seen, loadActive] at this ⊢
    simp [this]
  · intro file ttlSecs now e he
    exact loadActive_inv file ttlSecs now [] (by simp) e he

/-- Witness for C5 at a concrete fresh store, fingerprint and times. -/
theorem seen_store_persistence_c5_witness :
    seen (mkStore (record ⟨[], []⟩ (str "aa") ⟨str "s", str "t", str "u", str "d"⟩
        ⟨2025, 10, 5, 0, 0, 0, some 0⟩).file 7 ⟨2025, 10, 6, 0, 0, 0, some 0⟩) (str "aa") = true ∧
    seen (mkStore (record ⟨[], []⟩ (str "aa") ⟨str "s", str "t", str "u", str "d"⟩
        ⟨2025, 10, 5, 0, 0, 0, some 0⟩).file 0 ⟨2025, 10, 6, 0, 0, 0, some 0⟩) (str "aa") = false := by
  constructor
  · exact seen_store_persistence_c5.1 ⟨[], []⟩ (str "aa") ⟨str "s", str "t", str "u", str "d"⟩
      ⟨2025, 10, 5, 0, 0, 0, some 0⟩ ⟨2025, 10, 6, 0, 0, 0, some 0⟩ (by decide) (by decide) (by decide)
  · exact seen_store_persistence_c5.2.1 _ (str "aa") ⟨2025, 10, 6, 0, 0, 0, some 0⟩ (by decide)

/-- The duplicated normalized event of the dedupe-integration scenario:
it scores 3 (`buyback` rule) and passes the default threshold. -/
def dupEvent : Event :=
  { source := some (str "Reuters"),
    title := some (str "Company announces share repurchase program"),
    urls := [str "https://example.com/a"],
    event_datetime_utc := some (str "2025-10-04T00:00:00Z"),
    event_kind := some (str "PR"), event_subtype := some (str "PR"),
    body := some (str "") }

set_option maxRecDepth 8000 in
/-- C6 (counterexample): over a file with two IDENTICAL events that each
pass the threshold, the first run emits exactly 1 signal line, not 2:
`record` puts the fingerprint into the in-memory active map immediately,
so the second copy is suppressed within the same run. -/
theorem stage_dedupe_counterexample_c6 :
    scoreHits (hitTags (stageText dupEvent)) dupEvent.event_kind dupEvent.event_subtype ≥ 3 ∧
    hitTags (stageText dupEvent) ≠ [] ∧
    (runStage 3 true ⟨2025, 10, 5, 0, 0, 0, some 0⟩ [dupEvent, dupEvent]
        (mkStore [] 7 ⟨2025, 10, 5, 0, 0, 0, some 0⟩)).1.length = 1 := by
  refine ⟨by decide, by decide, by decide⟩

/-- A scoring stage step that passes the threshold on an unseen
fingerprint emits the line and records the fingerprint. -/
theorem stageStep_emit (outs : List SigLine) (st : StoreState) (e : Event) (now : PyDateTime)
    (hcond : scoreHits (hitTags (stageText e)) e.event_kind e.event_subtype ≥ 3 ∧
      hitTags (stageText e) ≠ [])
    (hseen : seen st (makeHash e now).1 = false) :
    stageStep 3 true now (outs, st) e
      = (outs ++ [⟨e, scoreHits (hitTags (stageText e)) e.event_kind e.event_subtype,
          hitTags (stageText e)⟩], record st (makeHash e now).1 (makeHash e now).2 now) := by
  simp [stageStep, hcond, hseen]

/-- A scoring stage step on a fingerprint already in the active map
emits nothing and leaves the store unchanged. -/
theorem stageStep_skip (outs : List SigLine) (st : StoreState) (e : Event) (now : PyDateTime)
    (hseen : seen st (makeHash e now).1 = true) :
    stageStep 3 true now (outs, st) e = (outs, st) := by
  by_cases hcond : scoreHits (hitTags (stageText e)) e.event_kind e.event_subtype ≥ 3 ∧
      hitTags (stageText e) ≠ []
  · simp [stageStep, hcond, hseen]
  · simp [stageStep, hcond]

/-- C6 (amended): with two identical threshold-passing events in one
file, the first run over a fresh store emits exactly 1 signal line (the
in-run duplicate is suppressed), and a second run over the same input
with the persisted state, within the TTL window and with a stable
fingerprint, emits exactly 0. -/
theorem stage_dedupe_rerun_c6 :
    ∀ (e : Event) (now tLoad : PyDateTime),
      scoreHits (hitTags (stageText e)) e.event_kind e.event_subtype ≥ 3 →
      hitTags (stageText e) ≠ [] →
      utcSecs tLoad - utcSecs now < 7 * 86400 →
      (makeHash e tLoad).1 = (makeHash e now).1 →
      (runStage 3 true now [e, e] (mkStore [] 7 now)).1.length = 1 ∧
      (runStage 3 true tLoad [e, e]
          (mkStore (runStage 3 true now [e, e] (mkStore [] 7 now)).2.file 7 tLoad)).1.length
        = 0 := by
  intro e now tLoad hscore hhits hwin hstable
  have hcond : scoreHits (hitTags (stageText e)) e.event_kind e.event_subtype ≥ 3 ∧
      hitTags (stageText e) ≠ [] := ⟨hscore, hhits⟩
  set entry : SeenEntry := ⟨(makeHash e now).1, now, now, (makeHash e now).2⟩ with hentry
  have hrec : record ⟨[], []⟩ (makeHash e now).1 (makeHash e now).2 now = ⟨[entry], [entry]⟩ := by
    simp [record, dictInsert, hentry]
  have hrun1 : runStage 3 true now [e, e] (mkStore [] 7 now)
      = ([⟨e, scoreHits (hitTags (stageText e)) e.event_kind e.event_subtype,
           hitTags (stageText e)⟩], ⟨[entry], [entry]⟩) := by
    show runStage 3 true now [e, e] ⟨[], []⟩ = _
    unfold runStage
    rw [List.foldl_cons, stageStep_emit [] ⟨[], []⟩ e now hcond rfl, hrec,
        List.foldl_cons, stageStep_skip _ _ e now (by simp [seen, hentry]), List.foldl_nil]
    simp
  refine ⟨by rw [hrun1]; rfl, ?_⟩
  rw [hrun1]
  have hload : mkStore (StoreState.mk [entry] [entry]).file 7 tLoad = ⟨[entry], [entry]⟩ := by
    simp only [mkStore, loadActive, List.foldl_cons, List.foldl_nil]
    rw [if_pos (by simpa [hentry] using hwin)]
    simp [dictInsert]
  rw [hload]
  have hseen2 : seen ⟨[entry], [entry]⟩ (makeHash e tLoad).1 = true := by
    rw [hstable]; simp [seen, hentry]
  unfold runStage
  rw [List.foldl_cons, stageStep_skip _ _ e tLoad hseen2,
      List.foldl_cons, stageStep_skip _ _ e tLoad hseen2, List.foldl_nil]
  rfl

set_option maxRecDepth 8000 in
/-- Witness for C6 (amended) at the concrete duplicated event. -/
theorem stage_dedupe_rerun_c6_witness :
    (runStage 3 true ⟨2025, 10, 5, 0, 0, 0, some 0⟩ [dupEvent, dupEvent]
        (mkStore [] 7 ⟨2025, 10, 5, 0, 0, 0, some 0⟩)).1.length = 1 ∧
    (runStage 3 true ⟨2025, 10, 5, 0, 0, 0, some 0⟩ [dupEvent, dupEvent]
        (mkStore (runStage 3 true ⟨2025, 10, 5, 0, 0, 0, some 0⟩ [dupEvent, dupEvent]
            (mkStore [] 7 ⟨2025, 10, 5, 0, 0, 0, some 0⟩)).2.file 7
          ⟨2025, 10, 5, 0, 0, 0, some 0⟩)).1.length = 0 :=
  stage_dedupe_rerun_c6 dupEvent ⟨2025, 10, 5, 0, 0, 0, some 0⟩ ⟨2025, 10, 5, 0, 0, 0, some 0⟩
    (by decide) (by decide) (by decide) rfl

/-- The claim-side description of the window sweep, stated with `filter`
("collect every subsequent signal whose time falls within
`anchor_time + window_hours`"): compared against `sweepGo` (the code's
break-on-first-late loop) under sortedness. -/
def sweepSpecGo {α : Type} (τ : α → ℤ) : ℕ → ℤ → List α → List (List α)
  | 0, _, _ => []
  | _, _, [] => []
  | f + 1, W, t :: ts =>
    let w := t :: ts.filter (fun u => decide (τ u ≤ τ t + W))
    w :: sweepSpecGo τ f W (ts.drop (w.length - 1))

/-- The claim-side sweep. -/
def sweepSpec {α : Type} (τ : α → ℤ) (W : ℤ) (ts : List α) : List (List α) :=
  sweepSpecGo τ ts.length W ts

/-- Dropping as many elements as the `takeWhile` prefix is `dropWhile`. -/
theorem drop_length_takeWhile {α : Type} (p : α → Bool) (l : List α) :
    l.drop (l.takeWhile p).length = l.dropWhile p := by
  induction l with
  | nil => rfl
  | cons a l ih =>
    by_cases h : p a
    · simp [List.takeWhile_cons_of_pos h, List.dropWhile_cons_of_pos h, ih]
    · simp [List.takeWhile_cons_of_neg h, List.dropWhile_cons_of_neg h]

/-- With a non-negative window, one sweep step anchors on the head,
consumes the `takeWhile` run, and recurses on the `dropWhile` rest. -/
theorem sweepGo_window_cons {α : Type} (τ : α → ℤ) (W : ℤ) (hW : 0 ≤ W) (t : α) (ts : List α)
    (f : ℕ) :
    sweepGo τ (f + 1) W (t :: ts)
      = (t :: ts.takeWhile (fun u => decide (τ u ≤ τ t + W)))
        :: sweepGo τ f W (ts.dropWhile (fun u => decide (τ u ≤ τ t + W))) := by
  have hpt : decide (τ t ≤ τ t + W) = true := by simp; omega
  show (let w := (t :: ts).takeWhile (fun u => decide (τ u ≤ τ t + W));
        if w.isEmpty then sweepGo τ f W (t :: ts)
        else w :: sweepGo τ f W ((t :: ts).drop w.length)) = _
  simp only [List.takeWhile_cons, hpt, if_true, List.isEmpty_cons, List.length_cons,
    List.drop_succ_cons, Bool.false_eq_true, if_false, drop_length_takeWhile]

/-- Concatenating the swept windows returns the original list. -/
theorem sweepGo_flatten {α : Type} (τ : α → ℤ) (W : ℤ) (hW : 0 ≤ W) :
    ∀ (f : ℕ) (ts : List α), ts.length ≤ f → (sweepGo τ f W ts).flatten = ts := by
  intro f
  induction f with
  | zero =>
    intro ts h
    have : ts = [] := List.eq_nil_of_length_eq_zero (Nat.le_zero.mp h)
    subst this; rfl
  | succ f ih =>
    intro ts h
    match ts with
    | [] => rfl
    | t :: ts =>
      rw [sweepGo_window_cons τ W hW t ts f]
      have hlen : (ts.dropWhile (fun u => decide (τ u ≤ τ t + W))).length ≤ f := by
        have h1 : (ts.dropWhile (fun u => decide (τ u ≤ τ t + W))).length ≤ ts.length :=
          (List.dropWhile_sublist _).length_le
        simp at h
        omega
      simp only [List.flatten_cons, ih _ hlen, List.cons_append, List.cons_inj_right]
      rw [List.takeWhile_append_dropWhile]

/-- On a τ-sorted list, `takeWhile (τ · ≤ c)` and `filter (τ · ≤ c)`
coincide. -/
theorem takeWhile_eq_filter_sorted {α : Type} (τ : α → ℤ) (c : ℤ) :
    ∀ (l : List α), l.Pairwise (fun a b => τ a ≤ τ b) →
      l.takeWhile (fun u => decide (τ u ≤ c)) = l.filter (fun u => decide (τ u ≤ c)) := by
  intro l
  induction l with
  | nil => intro _; rfl
  | cons a l ih =>
    intro hs
    rcases List.pairwise_cons.mp hs with ⟨ha, hl⟩
    by_cases h : τ a ≤ c
    · simp only [List.takeWhile_cons, List.filter_cons, decide_eq_true h, if_true, ih hl]
    · simp only [List.takeWhile_cons, List.filter_cons, decide_eq_false h, Bool.false_eq_true,
        if_false]
      rw [List.filter_eq_nil_iff.mpr]
      intro x hx
      simp only [decide_eq_true_eq]
      have := ha x hx
      omega

/-- Every swept window is nonempty. -/
theorem sweepGo_nonempty {α : Type} (τ : α → ℤ) (W : ℤ) :
    ∀ (f : ℕ) (ts : List α) (w : List α), w ∈ sweepGo τ f W ts → w ≠ [] := by
  intro f
  induction f with
  | zero => intro ts w hw; simp [sweepGo] at hw
  | succ f ih =>
    intro ts w hw
    match ts with
    | [] => simp [sweepGo] at hw
    | t :: ts =>
      simp only [sweepGo] at hw
      by_cases he : ((t :: ts).takeWhile (fun u => decide (τ u ≤ τ t + W))).isEmpty
      · rw [if_pos he] at hw
        exact ih _ w hw
      · rw [if_neg he] at hw
        rcases List.mem_cons.mp hw with rfl | hw
        · intro hnil
          rw [hnil] at he
          exact he rfl
        · exact ih _ w hw

/-- Every member of a swept window is within the anchor's window. -/
theorem sweepGo_within {α : Type} (τ : α → ℤ) (W : ℤ) (hW : 0 ≤ W) :
    ∀ (f : ℕ) (ts : List α) (t : α) (w : List α), (t :: w) ∈ sweepGo τ f W ts →
      ∀ x ∈ t :: w, τ x ≤ τ t + W := by
  intro f
  induction f with
  | zero => intro ts t w hw; simp [sweepGo] at hw
  | succ f ih =>
    intro ts t w hw x hx
    match ts with
    | [] => simp [sweepGo] at hw
    | a :: ts =>
      rw [sweepGo_window_cons τ W hW a ts f] at hw
      rcases List.mem_cons.mp hw with heq | hw
      · have ht : t = a := (List.cons_eq_cons.mp heq).1
        have hwe : w = ts.takeWhile (fun u => decide (τ u ≤ τ a + W)) :=
          (List.cons_eq_cons.mp heq).2
        subst ht
        rcases List.mem_cons.mp hx with rfl | hx
        · omega
        · rw [hwe] at hx
          have := List.mem_takeWhile_imp hx
          simpa using this
      · exact ih _ t w hw x hx

/-- On sorted input the code's break-on-first-late sweep equals the
claim's collect-all-within sweep. -/
theorem sweepGo_eq_spec {α : Type} (τ : α → ℤ) (W : ℤ) (hW : 0 ≤ W) :
    ∀ (f : ℕ) (ts : List α), ts.length ≤ f → ts.Pairwise (fun a b => τ a ≤ τ b) →
      sweepGo τ f W ts = sweepSpecGo τ f W ts := by
  intro f
  induction f with
  | zero =>
    intro ts h _
    have : ts = [] := List.eq_nil_of_length_eq_zero (Nat.le_zero.mp h)
    subst this; rfl
  | succ f ih =>
    intro ts hlen hs
    match ts with
    | [] => rfl
    | t :: ts =>
      rw [sweepGo_window_cons τ W hW t ts f]
      rcases List.pairwise_cons.mp hs with ⟨ht, hts⟩
      have hfil : ts.takeWhile (fun u => decide (τ u ≤ τ t + W))
          = ts.filter (fun u => decide (τ u ≤ τ t + W)) :=
        takeWhile_eq_filter_sorted τ (τ t + W) ts hts
      show _ = (t :: ts.filter (fun u => decide (τ u ≤ τ t + W)))
        :: sweepSpecGo τ f W
            (ts.drop ((t :: ts.filter (fun u => decide (τ u ≤ τ t + W))).length - 1))
      rw [← hfil]
      simp only [List.length_cons, Nat.add_sub_cancel]
      rw [← drop_length_takeWhile (fun u => decide (τ u ≤ τ t + W)) ts]
      congr 1
      apply ih
      · have : (ts.drop (ts.takeWhile (fun u => decide (τ u ≤ τ t + W))).length).length
            ≤ ts.length := (List.drop_sublist _ _).length_le
        simp only [List.length_cons] at hlen
        omega
      · exact List.Pairwise.sublist (List.drop_sublist _ _) hts

/-- C4: for a non-negative window, the per-ticker sweep of
`fuse_signals` partitions the signal list into nonempty windows whose
concatenation is the original list (every signal consumed by exactly one
window); each window's members lie within `anchor + W`; on time-sorted
input the consumed run is exactly the subsequent signals within the
window (the `filter`-phrased spec sweep); and exactly one fused output
is produced per window. -/
theorem fuse_windows_partition_c4 :
    (∀ (τ : Signal → ℤ) (W : ℤ) (ts : List Signal), 0 ≤ W → (sweep τ W ts).flatten = ts) ∧
    (∀ (τ : Signal → ℤ) (W : ℤ) (ts w : List Signal), w ∈ sweep τ W ts → w ≠ []) ∧
    (∀ (τ : Signal → ℤ) (W : ℤ), 0 ≤ W → ∀ (ts : List Signal) (t : Signal) (w : List Signal),
       (t :: w) ∈ sweep τ W ts → ∀ x ∈ t :: w, τ x ≤ τ t + W) ∧
    (∀ (τ : Signal → ℤ) (W : ℤ), 0 ≤ W → ∀ ts : List Signal,
       ts.Pairwise (fun a b => τ a ≤ τ b) → sweep τ W ts = sweepSpec τ W ts) ∧
    (∀ (τ : Signal → ℤ) (W : ℤ) (tkr : Str) (ts : List Signal),
       (fuseTicker τ W tkr ts).length = (sweep τ W ts).length) := by
  refine ⟨?_, ?_, ?_, ?_, ?_⟩
  · intro τ W ts hW
    exact sweepGo_flatten τ W hW ts.length ts le_rfl
  · intro τ W ts w hw
    exact sweepGo_nonempty τ W ts.length ts w hw
  · intro τ W hW ts t w hw
    exact sweepGo_within τ W hW ts.length ts t w hw
  · intro τ W hW ts hs
    exact sweepGo_eq_spec τ W hW ts.length ts le_rfl hs
  · intro τ W tkr ts
    exact List.length_map _ _

/-- Witness for C4 at a concrete two-signal list (times 0 and 100,
window 48): the sweep partitions it into two singleton windows. -/
theorem fuse_windows_partition_c4_witness :
    (sweep (fun s : Signal => s.num_insiders) 48
        ([{ num_insiders := 0 }, { num_insiders := 100 }] : List Signal)).flatten
      = ([{ num_insiders := 0 }, { num_insiders := 100 }] : List Signal) ∧
    sweep (fun s : Signal => s.num_insiders) 48
        ([{ num_insiders := 0 }, { num_insiders := 100 }] : List Signal)
      = sweepSpec (fun s : Signal => s.num_insiders) 48
          ([{ num_insiders := 0 }, { num_insiders := 100 }] : List Signal) := by
  constructor
  · exact fuse_windows_partition_c4.1 _ 48 _ (by decide)
  · exact fuse_windows_partition_c4.2.2.2.1 _ 48 (by decide) _ (by decide)

/-- `to_iso_utc` always produces a string matching the strict
`YYYY-MM-DDTHH:MM:SSZ` pattern (every digit slot is zero-padded by
construction). -/
theorem strict_toIsoUtc (dt : PyDateTime) : strictZIso (toIsoUtc dt) = true := by
  have h : ∀ a b c d e f : ℤ,
      strictZIso (pad4 a ++ 45 :: pad2 b ++ 45 :: pad2 c ++ 84 :: pad2 d ++
        58 :: pad2 e ++ 58 :: pad2 f ++ [90]) = true := by
    intro a b c d e f
    simp only [pad4, pad2, List.cons_append, List.nil_append, strictZIso, isDigit]
    simp only [Bool.and_eq_true, decide_eq_true_eq]
    omega
  unfold toIsoUtc
  exact h _ _ _ _ _ _

theorem candField_update (s : Str) (fg : Str × (Rec → Option Str)) (hmem : fg ∈ candidateFields s)
    (rec : Rec) (e : Option Str) :
    fg.2 { rec with timestamp_error := e } = fg.2 rec := by
  unfold candidateFields at hmem
  split_ifs at hmem
  · simp only [List.mem_cons, List.not_mem_nil, or_false] at hmem
    rcases hmem with rfl | rfl | rfl <;> rfl
  · simp only [List.mem_cons, List.not_mem_nil, or_false] at hmem
    rcases hmem with rfl | rfl | rfl | rfl <;> rfl
  · simp only [List.mem_cons, List.not_mem_nil, or_false] at hmem
    rcases hmem with rfl | rfl | rfl | rfl <;> rfl

theorem candLoop_update (rec : Rec) (e : Option Str) (tz : Str) (s : Str) :
    ∀ (fields : List (Str × (Rec → Option Str))), (∀ fg ∈ fields, fg ∈ candidateFields s) →
    ∀ (le : Option DtErr),
      candLoop { rec with timestamp_error := e } tz le fields = candLoop rec tz le fields := by
  intro fields
  induction fields with
  | nil => intro _ _; rfl
  | cons fg rest ih =>
    intro hmem le
    unfold candLoop
    rw [candField_update s fg (hmem fg (by simp)) rec e]
    by_cases ht : truthy (fg.2 rec)
    · simp only [ht, if_true]
      cases parseToUtc (fg.2 rec) (some tz) with
      | ok dt => rfl
      | error er => exact ih (fun x hx => hmem x (by simp [hx])) (some er)
    · simp only [ht, Bool.false_eq_true, if_false]
      exact ih (fun x hx => hmem x (by simp [hx])) le

theorem hasAny_update (rec : Rec) (e : Option Str) (s : Str) :
    (candidateFields s).any (fun fg => truthy (fg.2 { rec with timestamp_error := e }))
      = (candidateFields s).any (fun fg => truthy (fg.2 rec)) := by
  have : ∀ (fields : List (Str × (Rec → Option Str))), (∀ fg ∈ fields, fg ∈ candidateFields s) →
      fields.any (fun fg => truthy (fg.2 { rec with timestamp_error := e }))
        = fields.any (fun fg => truthy (fg.2 rec)) := by
    intro fields
    induction fields with
    | nil => intro _; rfl
    | cons fg rest ih =>
      intro hmem
      simp only [List.any_cons]
      rw [candField_update s fg (hmem fg (by simp)) rec e,
          ih (fun x hx => hmem x (by simp [hx]))]
  exact this _ (fun _ h => h)

theorem harden_eval_candok (env : HardenEnv) (rec : Rec) (nd : Str × PyDateTime)
    (hsF : alreadyStrict rec = false)
    (hA : (candidateFields (lowerStr (strip (rec.source.getD [])))).any
        (fun fg => truthy (fg.2 rec)) = true)
    (hC : candLoop rec (sourceDefaults env (lowerStr (strip (rec.source.getD [])))) none
        (candidateFields (lowerStr (strip (rec.source.getD [])))) = .ok nd) :
    hardenRecord env rec = { rec with
      event_datetime_utc := some (toIsoUtc nd.2),
      timestamp_source := some nd.1,
      timestamp_backfilled := some false } := by
  unfold hardenRecord
  rw [if_neg (by simp [hsF])]
  simp only [hA, if_true, hC]

theorem harden_of_strict (env : HardenEnv) (R : Rec) (h : alreadyStrict R = true) :
    hardenRecord env R = R := by
  unfold hardenRecord; rw [if_pos h]

theorem harden_eval_ing_ok_candfail (env : HardenEnv) (rec : Rec) (dt : PyDateTime)
    (le : Option DtErr) (hsF : alreadyStrict rec = false)
    (hA : (candidateFields (lowerStr (strip (rec.source.getD [])))).any
        (fun fg => truthy (fg.2 rec)) = true)
    (hC : candLoop rec (sourceDefaults env (lowerStr (strip (rec.source.getD [])))) none
        (candidateFields (lowerStr (strip (rec.source.getD [])))) = .error le)
    (hI : truthy rec.ingested_at_utc = true)
    (hP : parseToUtc rec.ingested_at_utc (some (str "UTC")) = .ok dt) :
    hardenRecord env rec = { rec with
      timestamp_error := some (if le = some DtErr.outOfRange then str "out_of_range"
                               else str "unparseable"),
      event_datetime_utc := some (toIsoUtc dt),
      timestamp_source := some (str "ingested_at_utc"),
      timestamp_backfilled := some true } := by
  unfold hardenRecord
  rw [if_neg (by simp [hsF])]
  simp only [hA, if_true, hC, hI, hP]

theorem harden_eval_ing_ok_nocand (env : HardenEnv) (rec : Rec) (dt : PyDateTime)
    (hsF : alreadyStrict rec = false)
    (hA : (candidateFields (lowerStr (strip (rec.source.getD [])))).any
        (fun fg => truthy (fg.2 rec)) = false)
    (hI : truthy rec.ingested_at_utc = true)
    (hP : parseToUtc rec.ingested_at_utc (some (str "UTC")) = .ok dt) :
    hardenRecord env rec = { rec with
      event_datetime_utc := some (toIsoUtc dt),
      timestamp_source := some (str "ingested_at_utc"),
      timestamp_backfilled := some true } := by
  unfold hardenRecord
  rw [if_neg (by simp [hsF])]
  simp only [hA, Bool.false_eq_true, if_false, hI, hP]
  all_goals simp

theorem harden_eval_fail_candfail_ingfail (env : HardenEnv) (rec : Rec)
    (le : Option DtErr) (er : DtErr) (hsF : alreadyStrict rec = false)
    (hA : (candidateFields (lowerStr (strip (rec.source.getD [])))).any
        (fun fg => truthy (fg.2 rec)) = true)
    (hC : candLoop rec (sourceDefaults env (lowerStr (strip (rec.source.getD [])))) none
        (candidateFields (lowerStr (strip (rec.source.getD [])))) = .error le)
    (hI : truthy rec.ingested_at_utc = true)
    (hP : parseToUtc rec.ingested_at_utc (some (str "UTC")) = .error er) :
    hardenRecord env rec = { rec with timestamp_error := some (str "unparseable") } := by
  unfold hardenRecord
  rw [if_neg (by simp [hsF])]
  simp only [hA, if_true, hC, hI, hP]
  all_goals simp

theorem harden_eval_fail_candfail_noing (env : HardenEnv) (rec : Rec)
    (le : Option DtErr) (hsF : alreadyStrict rec = false)
    (hA : (candidateFields (lowerStr (strip (rec.source.getD [])))).any
        (fun fg => truthy (fg.2 rec)) = true)
    (hC : candLoop rec (sourceDefaults env (lowerStr (strip (rec.source.getD [])))) none
        (candidateFields (lowerStr (strip (rec.source.getD [])))) = .error le)
    (hI : truthy rec.ingested_at_utc = false) :
    hardenRecord env rec = { rec with
      timestamp_error := some (if le = some DtErr.outOfRange then str "out_of_range"
                               else str "unparseable") } := by
  unfold hardenRecord
  rw [if_neg (by simp [hsF])]
  simp only [hA, if_true, hC, hI, Bool.false_eq_true, if_false]
  all_goals simp

theorem harden_eval_missing_ingfail (env : HardenEnv) (rec : Rec) (er : DtErr)
    (hsF : alreadyStrict rec = false)
    (hA : (candidateFields (lowerStr (strip (rec.source.getD [])))).any
        (fun fg => truthy (fg.2 rec)) = false)
    (hI : truthy rec.ingested_at_utc = true)
    (hP : parseToUtc rec.ingested_at_utc (some (str "UTC")) = .error er) :
    hardenRecord env rec = { rec with timestamp_error := some (str "missing") } := by
  unfold hardenRecord
  rw [if_neg (by simp [hsF])]
  simp only [hA, Bool.false_eq_true, if_false, hI, hP]
  all_goals simp

theorem harden_eval_missing_noing (env : HardenEnv) (rec : Rec)
    (hsF : alreadyStrict rec = false)
    (hA : (candidateFields (lowerStr (strip (rec.source.getD [])))).any
        (fun fg => truthy (fg.2 rec)) = false)
    (hI : truthy rec.ingested_at_utc = false) :
    hardenRecord env rec = { rec with timestamp_error := some (str "missing") } := by
  unfold hardenRecord
  rw [if_neg (by simp [hsF])]
  simp only [hA, hI, Bool.false_eq_true, if_false]
  simp

theorem hardenRecord_idem (env : HardenEnv) (rec : Rec) :
    hardenRecord env (hardenRecord env rec) = hardenRecord env rec := by
  by_cases hs : alreadyStrict rec
  · have h1 := harden_of_strict env rec hs
    rw [h1, h1]
  · have hsF : alreadyStrict rec = false := by simpa using hs
    by_cases hA : (candidateFields (lowerStr (strip (rec.source.getD [])))).any
        (fun fg => truthy (fg.2 rec))
    · cases hC : candLoop rec (sourceDefaults env (lowerStr (strip (rec.source.getD [])))) none
          (candidateFields (lowerStr (strip (rec.source.getD [])))) with
      | ok nd =>
        rw [harden_eval_candok env rec nd hsF hA hC]
        exact harden_of_strict env _ (by simp [alreadyStrict, strict_toIsoUtc])
      | error le =>
        by_cases hI : truthy rec.ingested_at_utc
        · cases hP : parseToUtc rec.ingested_at_utc (some (str "UTC")) with
          | ok dt =>
            rw [harden_eval_ing_ok_candfail env rec dt le hsF hA hC hI hP]
            exact harden_of_strict env _ (by simp [alreadyStrict, strict_toIsoUtc])
          | error er =>
            rw [harden_eval_fail_candfail_ingfail env rec le er hsF hA hC hI hP]
            exact (harden_eval_fail_candfail_ingfail env
              ({ rec with timestamp_error := some (str "unparseable") } : Rec) le er hsF
              (by show (candidateFields (lowerStr (strip (rec.source.getD [])))).any
                    (fun fg => truthy
                      (fg.2 ({ rec with timestamp_error := some (str "unparseable") } : Rec)))
                    = true
                  rw [hasAny_update rec (some (str "unparseable"))
                      (lowerStr (strip (rec.source.getD [])))]
                  exact hA)
              (by show candLoop ({ rec with timestamp_error := some (str "unparseable") } : Rec)
                    (sourceDefaults env (lowerStr (strip (rec.source.getD [])))) none
                    (candidateFields (lowerStr (strip (rec.source.getD [])))) = .error le
                  rw [candLoop_update rec (some (str "unparseable"))
                      (sourceDefaults env (lowerStr (strip (rec.source.getD []))))
                      (lowerStr (strip (rec.source.getD [])))
                      (candidateFields (lowerStr (strip (rec.source.getD []))))
                      (fun _ h => h) none]
                  exact hC)
              hI hP).trans rfl
        · have hIF : truthy rec.ingested_at_utc = false := by simpa using hI
          rw [harden_eval_fail_candfail_noing env rec le hsF hA hC hIF]
          exact (harden_eval_fail_candfail_noing env
            ({ rec with timestamp_error := some (if le = some DtErr.outOfRange
                then str "out_of_range" else str "unparseable") } : Rec) le hsF
            (by show (candidateFields (lowerStr (strip (rec.source.getD [])))).any
                  (fun fg => truthy
                    (fg.2 ({ rec with timestamp_error := some (if le = some DtErr.outOfRange
                      then str "out_of_range" else str "unparseable") } : Rec)))
                  = true
                rw [hasAny_update rec _ (lowerStr (strip (rec.source.getD [])))]
                exact hA)
            (by show candLoop ({ rec with timestamp_error := some (if le = some DtErr.outOfRange
                  then str "out_of_range" else str "unparseable") } : Rec)
                  (sourceDefaults env (lowerStr (strip (rec.source.getD [])))) none
                  (candidateFields (lowerStr (strip (rec.source.getD [])))) = .error le
                rw [candLoop_update rec _
                    (sourceDefaults env (lowerStr (strip (rec.source.getD []))))
                    (lowerStr (strip (rec.source.getD [])))
                    (candidateFields (lowerStr (strip (rec.source.getD []))))
                    (fun _ h => h) none]
                exact hC)
            hIF).trans rfl
    · have hAF : (candidateFields (lowerStr (strip (rec.source.getD [])))).any
          (fun fg => truthy (fg.2 rec)) = false := by simpa using hA
      by_cases hI : truthy rec.ingested_at_utc
      · cases hP : parseToUtc rec.ingested_at_utc (some (str "UTC")) with
        | ok dt =>
          rw [harden_eval_ing_ok_nocand env rec dt hsF hAF hI hP]
          exact harden_of_strict env _ (by simp [alreadyStrict, strict_toIsoUtc])
        | error er =>
          rw [harden_eval_missing_ingfail env rec er hsF hAF hI hP]
          exact (harden_eval_missing_ingfail env
            ({ rec with timestamp_error := some (str "missing") } : Rec) er hsF
            (by show (candidateFields (lowerStr (strip (rec.source.getD [])))).any
                  (fun fg => truthy
                    (fg.2 ({ rec with timestamp_error := some (str "missing") } : Rec)))
                  = false
                rw [hasAny_update rec (some (str "missing"))
                    (lowerStr (strip (rec.source.getD [])))]
                exact hAF)
            hI hP).trans rfl
      · have hIF : truthy rec.ingested_at_utc = false := by simpa using hI
        rw [harden_eval_missing_noing env rec hsF hAF hIF]
        exact (harden_eval_missing_noing env
          ({ rec with timestamp_error := some (str "missing") } : Rec) hsF
          (by show (candidateFields (lowerStr (strip (rec.source.getD [])))).any
                (fun fg => truthy
                  (fg.2 ({ rec with timestamp_error := some (str "missing") } : Rec)))
                = false
              rw [hasAny_update rec (some (str "missing"))
                  (lowerStr (strip (rec.source.getD [])))]
              exact hAF)
          hIF).trans rfl

/-- C7: the hardening pass is idempotent: a record already bearing a
strictly-formatted `event_datetime_utc` is returned unchanged;
`harden_record` is idempotent on every record; and processing a file's
records twice gives the same list as processing once (so the second
`process_dir` run rewrites identical bytes). -/
theorem harden_idempotent_c7 :
    (∀ (env : HardenEnv) (rec : Rec), alreadyStrict rec = true → hardenRecord env rec = rec) ∧
    (∀ (env : HardenEnv) (rec : Rec),
       hardenRecord env (hardenRecord env rec) = hardenRecord env rec) ∧
    (∀ (env : HardenEnv) (recs : List Rec),
       processRecords env (processRecords env recs) = processRecords env recs) := by
  refine ⟨fun env rec h => harden_of_strict env rec h, hardenRecord_idem, ?_⟩
  intro env recs
  unfold processRecords
  rw [List.map_map]
  exact List.map_congr_left (fun r _ => hardenRecord_idem env r)

/-- Witness for C7 at a concrete already-strict record. -/
theorem harden_idempotent_c7_witness :
    hardenRecord {} ({ event_datetime_utc := some (str "2025-10-05T06:20:00Z") } : Rec)
      = ({ event_datetime_utc := some (str "2025-10-05T06:20:00Z") } : Rec) :=
  harden_idempotent_c7.1 {} _ (by decide)

/-! ## URL building blocks, query roundtrips, and fingerprint invariance (C1) -/

theorem unquote_cons_ne (c : ℕ) (cs : Str) (hc : c ≠ 37) :
    unquote (c :: cs) = c :: unquote cs := by
  conv_lhs => unfold unquote
  split <;> simp_all

theorem unquote_no_percent : ∀ (s : Str), (∀ c ∈ s, c ≠ 37) → unquote s = s := by
  intro s
  induction s with
  | nil => intro _; rfl
  | cons c cs ih =>
    intro h
    rw [unquote_cons_ne c cs (h c (by simp)), ih (fun x hx => h x (by simp [hx]))]

theorem takeWhile_all {α : Type} (p : α → Bool) (l : List α) (h : ∀ a ∈ l, p a = true) :
    l.takeWhile p = l := by
  induction l with
  | nil => rfl
  | cons a l ih =>
    rw [List.takeWhile_cons_of_pos (h a (by simp)), ih (fun x hx => h x (by simp [hx]))]

theorem takeWhile_all_append {α : Type} (p : α → Bool) (l₁ : List α) (b : α) (l₂ : List α)
    (h₁ : ∀ a ∈ l₁, p a = true) (hb : p b = false) :
    (l₁ ++ b :: l₂).takeWhile p = l₁ := by
  induction l₁ with
  | nil => simp [List.takeWhile_cons, hb]
  | cons a l ih =>
    rw [List.cons_append, List.takeWhile_cons_of_pos (h₁ a (by simp)),
        ih (fun x hx => h₁ x (by simp [hx]))]

theorem dropWhile_all_append {α : Type} (p : α → Bool) (l₁ : List α) (b : α) (l₂ : List α)
    (h₁ : ∀ a ∈ l₁, p a = true) (hb : p b = false) :
    (l₁ ++ b :: l₂).dropWhile p = b :: l₂ := by
  induction l₁ with
  | nil => simp [List.dropWhile_cons, hb]
  | cons a l ih =>
    rw [List.cons_append, List.dropWhile_cons_of_pos (h₁ a (by simp)),
        ih (fun x hx => h₁ x (by simp [hx]))]

theorem drop_left_cons {α : Type} (l₁ : List α) (b : α) (l₂ : List α) :
    (l₁ ++ b :: l₂).drop (l₁.length + 1) = l₂ := by
  have : l₁ ++ b :: l₂ = (l₁ ++ [b]) ++ l₂ := by simp
  rw [this, show l₁.length + 1 = (l₁ ++ [b]).length by simp, List.drop_left]

theorem alpha_not_ws (c : ℕ) (h : isAlpha c = true) : decide (c ≤ 32) = false := by
  simp only [isAlpha, Bool.or_eq_true, Bool.and_eq_true, decide_eq_true_eq] at h
  simp; omega

theorem notCtl_of_classes (c : ℕ)
    (h : isAlpha c = true ∨ isHostChar c = true ∨ isPathChar c = true ∨
      (alwaysSafe c || c == 38 || c == 61) = true ∨ c = 58 ∨ c = 47 ∨ c = 63) :
    (!(c == 9 || c == 10 || c == 13)) = true := by
  simp only [isAlpha, isHostChar, isPathChar, alwaysSafe, isDigit, Bool.or_eq_true,
    Bool.and_eq_true, decide_eq_true_eq, beq_iff_eq] at h
  simp only [Bool.not_eq_true', Bool.or_eq_false_iff, beq_eq_false_iff_ne]
  omega

theorem alpha_ne_colon (c : ℕ) (h : isAlpha c = true) : (decide (c ≠ 58)) = true := by
  simp only [isAlpha, Bool.or_eq_true, Bool.and_eq_true, decide_eq_true_eq] at h
  simp; omega

theorem alpha_schemeChar (c : ℕ) (h : isAlpha c = true) : schemeChar c = true := by
  simp [schemeChar, h]

theorem host_not_netlocEnd (c : ℕ) (h : isHostChar c = true) : (!netlocEnd c) = true := by
  simp only [isHostChar, isAlpha, isDigit, Bool.or_eq_true, Bool.and_eq_true,
    decide_eq_true_eq, beq_iff_eq] at h
  simp only [netlocEnd, Bool.not_eq_true', Bool.or_eq_false_iff, beq_eq_false_iff_ne]
  omega

theorem host_ne_bracket (c : ℕ) (h : isHostChar c = true) : c ≠ 91 ∧ c ≠ 93 := by
  simp only [isHostChar, isAlpha, isDigit, Bool.or_eq_true, Bool.and_eq_true,
    decide_eq_true_eq, beq_iff_eq] at h
  omega

theorem path_ne_q_frag (c : ℕ) (h : isPathChar c = true) : c ≠ 63 ∧ c ≠ 35 := by
  simp only [isPathChar, isAlpha, isDigit, Bool.or_eq_true, Bool.and_eq_true,
    decide_eq_true_eq, beq_iff_eq] at h
  omega

theorem qchar_ne (c : ℕ) (h : (alwaysSafe c || c == 38 || c == 61) = true) :
    c ≠ 63 ∧ c ≠ 35 ∧ c ≠ 37 ∧ c ≠ 43 := by
  simp only [alwaysSafe, isAlpha, isDigit, Bool.or_eq_true, Bool.and_eq_true,
    decide_eq_true_eq, beq_iff_eq] at h
  omega

set_option maxHeartbeats 2000000 in
theorem urlsplitE_buildUrl (scheme host path q : Str)
    (hs0 : scheme ≠ []) (hsA : ∀ c ∈ scheme, isAlpha c = true)
    (hh : ∀ c ∈ host, isHostChar c = true)
    (hp0 : path = [] ∨ ∃ p', path = 47 :: p')
    (hpC : ∀ c ∈ path, isPathChar c = true)
    (hqC : ∀ c ∈ q, (alwaysSafe c || c == 38 || c == 61) = true) :
    urlsplitE (buildUrl scheme host path q) = .ok (lowerStr scheme, host, path, q, []) := by
  obtain ⟨c0, scheme', rfl⟩ : ∃ c0 s', scheme = c0 :: s' := by
    cases scheme with
    | nil => exact absurd rfl hs0
    | cons a s => exact ⟨a, s, rfl⟩
  have hc0 : isAlpha c0 = true := hsA c0 (by simp)
  have hsplit : buildUrl (c0 :: scheme') host path q
      = (c0 :: scheme') ++ 58 :: (47 :: 47 :: (host ++ (path ++ (if q = [] then []
          else 63 :: q)))) := by
    simp [buildUrl]
  have hqpart : ∀ c ∈ (if q = [] then [] else 63 :: q),
      isAlpha c = true ∨ isHostChar c = true ∨ isPathChar c = true ∨
      (alwaysSafe c || c == 38 || c == 61) = true ∨ c = 58 ∨ c = 47 ∨ c = 63 := by
    intro c hc
    by_cases hq : q = []
    · simp [hq] at hc
    · rw [if_neg hq] at hc
      rcases List.mem_cons.mp hc with rfl | hc
      · tauto
      · exact Or.inr (Or.inr (Or.inr (Or.inl (hqC c hc))))
  have hmemclass : ∀ c ∈ buildUrl (c0 :: scheme') host path q,
      isAlpha c = true ∨ isHostChar c = true ∨ isPathChar c = true ∨
      (alwaysSafe c || c == 38 || c == 61) = true ∨ c = 58 ∨ c = 47 ∨ c = 63 := by
    intro c hc
    rw [hsplit] at hc
    rcases List.mem_append.mp hc with hc | hc
    · exact Or.inl (hsA c hc)
    · rcases List.mem_cons.mp hc with rfl | hc
      · tauto
      · rcases List.mem_cons.mp hc with rfl | hc
        · tauto
        · rcases List.mem_cons.mp hc with rfl | hc
          · tauto
          · rcases List.mem_append.mp hc with hc | hc
            · exact Or.inr (Or.inl (hh c hc))
            · rcases List.mem_append.mp hc with hc | hc
              · exact Or.inr (Or.inr (Or.inl (hpC c hc)))
              · exact hqpart c hc
  -- stage 1: WHATWG strip and tab/newline removal are the identity
  have h1 : ((buildUrl (c0 :: scheme') host path q).dropWhile
        (fun c => decide (c ≤ 32))).filter (fun c => !(c == 9 || c == 10 || c == 13))
      = buildUrl (c0 :: scheme') host path q := by
    rw [hsplit, List.cons_append,
        List.dropWhile_cons_of_neg (by rw [alpha_not_ws c0 hc0]; simp),
        ← List.cons_append, ← hsplit, List.filter_eq_self]
    intro c hc
    exact notCtl_of_classes c (hmemclass c hc)
  -- stage 2: the scheme prefix
  have h2 : (buildUrl (c0 :: scheme') host path q).takeWhile (fun c => decide (c ≠ 58))
      = c0 :: scheme' := by
    rw [hsplit]
    exact takeWhile_all_append _ _ _ _
      (fun a ha => by rw [alpha_ne_colon a (hsA a ha)])
      (by simp)
  have h3 : (buildUrl (c0 :: scheme') host path q).drop ((c0 :: scheme').length + 1)
      = 47 :: 47 :: (host ++ (path ++ (if q = [] then [] else 63 :: q))) := by
    rw [hsplit]
    exact drop_left_cons _ _ _
  -- stage 3: netloc
  have h4 : (host ++ (path ++ (if q = [] then [] else 63 :: q))).takeWhile
        (fun c => !netlocEnd c) = host ∧
      (host ++ (path ++ (if q = [] then [] else 63 :: q))).dropWhile
        (fun c => !netlocEnd c) = path ++ (if q = [] then [] else 63 :: q) := by
    have hhall : ∀ a ∈ host, (fun c => !netlocEnd c) a = true :=
      fun a ha => host_not_netlocEnd a (hh a ha)
    rcases hp0 with rfl | ⟨p', rfl⟩
    · by_cases hq : q = []
      · simp only [hq, if_true, List.nil_append, List.append_nil]
        exact ⟨takeWhile_all _ host hhall,
          List.dropWhile_eq_nil_iff.mpr (fun x hx => hhall x hx)⟩
      · rw [if_neg hq]
        simp only [List.nil_append]
        exact ⟨takeWhile_all_append _ _ _ _ hhall (by simp [netlocEnd]),
          dropWhile_all_append _ _ _ _ hhall (by simp [netlocEnd])⟩
    · rw [List.cons_append]
      exact ⟨takeWhile_all_append _ _ _ _ hhall (by simp [netlocEnd]),
        dropWhile_all_append _ _ _ _ hhall (by simp [netlocEnd])⟩
  have hbr : ¬((91 ∈ host ∧ 93 ∉ host) ∨ (93 ∈ host ∧ 91 ∉ host)) := by
    rintro (⟨h91, _⟩ | ⟨h93, _⟩)
    · exact (host_ne_bracket 91 (hh 91 h91)).1 rfl
    · exact (host_ne_bracket 93 (hh 93 h93)).2 rfl
  have h35 : (35 : ℕ) ∉ path ++ (if q = [] then [] else 63 :: q) := by
    intro hmem
    rcases List.mem_append.mp hmem with hc | hc
    · exact (path_ne_q_frag 35 (hpC 35 hc)).2 rfl
    · by_cases hq : q = []
      · simp [hq] at hc
      · rw [if_neg hq] at hc
        rcases List.mem_cons.mp hc with h63 | hc
        · exact absurd h63 (by decide)
        · exact (qchar_ne 35 (hqC 35 hc)).2.1 rfl
  have hcond : ((c0 :: scheme').length < (buildUrl (c0 :: scheme') host path q).length ∧
      c0 :: scheme' ≠ [] ∧ isAlpha ((c0 :: scheme').headD 0) ∧
      (c0 :: scheme').all schemeChar) := by
    refine ⟨?_, by simp, by simpa using hc0, ?_⟩
    · rw [hsplit]; simp
    · exact List.all_eq_true.mpr (fun a ha => alpha_schemeChar a (hsA a ha))
  simp only [urlsplitE]
  rw [h1, h2, if_pos hcond, h3]
  simp only [List.take_succ_cons, List.take_zero, List.drop_succ_cons, List.drop_zero,
    if_pos rfl, h4.1, h4.2, if_true]
  rw [if_neg hbr, if_neg h35]
  by_cases hq : q = []
  · subst hq
    have h63 : (63 : ℕ) ∉ path := fun hmem => (path_ne_q_frag 63 (hpC 63 hmem)).1 rfl
    simp [h63]
  · have hqp : path ++ (if q = [] then [] else 63 :: q) = path ++ 63 :: q := by rw [if_neg hq]
    have h63mem : (63 : ℕ) ∈ path ++ 63 :: q := List.mem_append.mpr (Or.inr (by simp))
    have htw : (path ++ 63 :: q).takeWhile (fun c => !decide (c = 63)) = path :=
      takeWhile_all_append _ _ _ _
        (fun a ha => by simp [(path_ne_q_frag a (hpC a ha)).1]) (by simp)
    have hdw : (path ++ 63 :: q).dropWhile (fun c => !decide (c = 63)) = 63 :: q :=
      dropWhile_all_append _ _ _ _
        (fun a ha => by simp [(path_ne_q_frag a (hpC a ha)).1]) (by simp)
    simp [hqp, h63mem]
    constructor
    · exact htw
    · rw [hdw]
      rfl
theorem lowerChar_32 (x : ℕ) (h : lowerChar x = 32) : x = 32 := by
  unfold lowerChar at h
  split_ifs at h <;> omega

theorem isSpace_lowerChar (c : ℕ) : isSpace (lowerChar c) = isSpace c := by
  unfold lowerChar
  split_ifs with h
  · have h1 : isSpace (c + 32) = false := by
      simp only [isSpace, Bool.or_eq_false_iff, beq_eq_false_iff_ne, ne_eq]
      omega
    have h2 : isSpace c = false := by
      simp only [isSpace, Bool.or_eq_false_iff, beq_eq_false_iff_ne, ne_eq]
      omega
    rw [h1, h2]
  · rfl

theorem isSpace_of_lower_eq {g : ℕ → ℕ} (hg : ∀ c, lowerChar (g c) = lowerChar c) (c : ℕ) :
    isSpace (g c) = isSpace c := by
  rw [← isSpace_lowerChar (g c), hg c, isSpace_lowerChar]

theorem g_fix_32 {g : ℕ → ℕ} (hg : ∀ c, lowerChar (g c) = lowerChar c) : g 32 = 32 := by
  have h := hg 32
  rw [show lowerChar 32 = 32 from rfl] at h
  exact lowerChar_32 _ h

theorem collapseGo_map {g : ℕ → ℕ} (hg : ∀ c, lowerChar (g c) = lowerChar c) :
    ∀ (b : Bool) (s : Str), collapseGo b (s.map g) = (collapseGo b s).map g := by
  intro b s
  induction s generalizing b with
  | nil => rfl
  | cons c cs ih =>
    simp only [List.map_cons, collapseGo, isSpace_of_lower_eq hg c]
    by_cases hc : isSpace c
    · by_cases hb : b
      · simp [hc, hb, ih true]
      · simp [hc, hb, ih true, g_fix_32 hg]
    · simp [hc, ih false]

theorem dropWhile_map_space {g : ℕ → ℕ} (hg : ∀ c, lowerChar (g c) = lowerChar c) (s : Str) :
    (s.map g).dropWhile isSpace = (s.dropWhile isSpace).map g := by
  induction s with
  | nil => rfl
  | cons c cs ih =>
    simp only [List.map_cons, List.dropWhile_cons, isSpace_of_lower_eq hg c]
    by_cases hc : isSpace c
    · simp [hc, ih]
    · simp [hc]

theorem strip_map {g : ℕ → ℕ} (hg : ∀ c, lowerChar (g c) = lowerChar c) (s : Str) :
    strip (s.map g) = (strip s).map g := by
  unfold strip
  rw [dropWhile_map_space hg, ← List.map_reverse, dropWhile_map_space hg, ← List.map_reverse]

theorem casefoldStr_map {g : ℕ → ℕ} (hg : ∀ c, lowerChar (g c) = lowerChar c) (s : Str) :
    casefoldStr (s.map g) = casefoldStr s := by
  unfold casefoldStr
  rw [List.map_map]
  exact List.map_congr_left (fun c _ => hg c)

/-- Letter-case invariance of `_casefold_trim`: mapping any
case-preserving character function over the input does not change the
canonical text. -/
theorem casefoldTrim_map {g : ℕ → ℕ} (hg : ∀ c, lowerChar (g c) = lowerChar c) (s : Str) :
    casefoldTrim (some (s.map g)) = casefoldTrim (some s) := by
  by_cases hs : s = []
  · simp [hs, casefoldTrim]
  · have hs' : s.map g ≠ [] := by simpa using hs
    simp only [casefoldTrim, if_neg hs, if_neg hs']
    unfold nfkc collapseWs
    rw [collapseGo_map hg, strip_map hg, casefoldStr_map hg]

/-- The `inRun` state of `collapseGo` after processing `s` starting
from state `b`: the spacehood of the last character, if any. -/
def endSt (b : Bool) (s : Str) : Bool :=
  match s.getLast? with
  | some c => isSpace c
  | none => b

theorem endSt_cons (b : Bool) (c : ℕ) (cs : Str) : endSt b (c :: cs) = endSt (isSpace c) cs := by
  cases cs with
  | nil => rfl
  | cons d ds =>
    show endSt b (c :: d :: ds) = endSt (isSpace c) (d :: ds)
    unfold endSt
    rw [List.getLast?_cons_cons]
    cases hl : (d :: ds).getLast? with
    | none => simp at hl
    | some x => rfl

theorem collapseGo_append : ∀ (b : Bool) (s t : Str),
    collapseGo b (s ++ t) = collapseGo b s ++ collapseGo (endSt b s) t := by
  intro b s
  induction s generalizing b with
  | nil => intro t; simp [collapseGo, endSt]
  | cons c cs ih =>
    intro t
    rw [List.cons_append]
    simp only [collapseGo, endSt_cons]
    by_cases hc : isSpace c
    · by_cases hb : b
      · simp [hc, hb, ih true]
      · simp [hc, hb, ih true]
    · simp [hc, ih false]

theorem collapseGo_true_spaces (post : Str) (h : ∀ c ∈ post, isSpace c = true) :
    collapseGo true post = [] := by
  induction post with
  | nil => rfl
  | cons c cs ih =>
    simp only [collapseGo, h c (by simp), if_true]
    exact ih (fun x hx => h x (by simp [hx]))

theorem collapseGo_false_spaces (post : Str) (h : ∀ c ∈ post, isSpace c = true)
    (hne : post ≠ []) : collapseGo false post = [32] := by
  cases post with
  | nil => exact absurd rfl hne
  | cons c cs =>
    simp only [collapseGo, h c (by simp), if_true]
    rw [collapseGo_true_spaces cs (fun x hx => h x (by simp [hx]))]
    simp

theorem rstrip_append_space (X : Str) (a : ℕ) (ha : isSpace a = true) :
    ((X ++ [a]).reverse.dropWhile isSpace).reverse = (X.reverse.dropWhile isSpace).reverse := by
  rw [List.reverse_append]
  simp [List.dropWhile_cons, ha]

theorem strip_append_space (X : Str) (a : ℕ) (ha : isSpace a = true) :
    strip (X ++ [a]) = strip X := by
  unfold strip
  rw [List.dropWhile_append]
  by_cases hX : (X.dropWhile isSpace).isEmpty
  · simp only [hX, if_true]
    rw [List.isEmpty_iff] at hX
    rw [hX]
    simp [List.dropWhile_cons, ha]
  · simp only [hX, Bool.false_eq_true, if_false]
    exact rstrip_append_space _ a ha

theorem strip_collapse_suffix (s post : Str) (hpost : ∀ c ∈ post, isSpace c = true) :
    strip (collapseWs (s ++ post)) = strip (collapseWs s) := by
  unfold collapseWs
  rw [collapseGo_append false s post]
  cases hE : endSt false s with
  | true =>
    rw [collapseGo_true_spaces post hpost, List.append_nil]
  | false =>
    by_cases hp : post = []
    · rw [hp]
      simp [collapseGo]
    · rw [collapseGo_false_spaces post hpost hp]
      exact strip_append_space _ 32 rfl

theorem dropWhile_collapseGo_true_false (s : Str) :
    (collapseGo true s).dropWhile isSpace = (collapseGo false s).dropWhile isSpace := by
  cases s with
  | nil => rfl
  | cons c cs =>
    simp only [collapseGo]
    by_cases hc : isSpace c
    · simp [hc, List.dropWhile_cons, show isSpace 32 = true from rfl]
    · simp [hc]

theorem strip_collapse_cons_space (c : ℕ) (s : Str) (hc : isSpace c = true) :
    strip (collapseWs (c :: s)) = strip (collapseWs s) := by
  unfold collapseWs strip
  simp only [collapseGo, hc, if_true, Bool.false_eq_true, if_false]
  rw [List.dropWhile_cons_of_pos (show isSpace 32 = true from rfl),
    dropWhile_collapseGo_true_false]

theorem strip_collapse_prefix (pre s : Str) (hpre : ∀ c ∈ pre, isSpace c = true) :
    strip (collapseWs (pre ++ s)) = strip (collapseWs s) := by
  induction pre with
  | nil => rfl
  | cons c cs ih =>
    rw [List.cons_append, strip_collapse_cons_space c _ (hpre c (by simp)),
      ih (fun x hx => hpre x (by simp [hx]))]

theorem casefoldTrim_some_ne (X : Str) (h : X ≠ []) :
    casefoldTrim (some X) = casefoldStr (strip (collapseWs (nfkc X))) := by
  simp [casefoldTrim, h]

/-- Surrounding-whitespace invariance of `_casefold_trim`. -/
theorem casefoldTrim_pad (pre post s : Str) (hpre : ∀ c ∈ pre, isSpace c = true)
    (hpost : ∀ c ∈ post, isSpace c = true) :
    casefoldTrim (some (pre ++ s ++ post)) = casefoldTrim (some s) := by
  have key : strip (collapseWs (pre ++ s ++ post)) = strip (collapseWs s) := by
    rw [List.append_assoc, strip_collapse_prefix pre _ hpre]
    exact strip_collapse_suffix s post hpost
  by_cases hall : pre ++ s ++ post = []
  · rcases List.append_eq_nil.mp hall with ⟨h1, hpost2⟩
    rcases List.append_eq_nil.mp h1 with ⟨hpre2, hs2⟩
    subst hpre2; subst hs2; subst hpost2
    rfl
  · rw [casefoldTrim_some_ne _ hall]
    by_cases hs : s = []
    · subst hs
      show casefoldStr (strip (collapseWs (nfkc (pre ++ [] ++ post)))) = casefoldTrim (some [])
      unfold nfkc
      rw [key]
      rfl
    · rw [casefoldTrim_some_ne s hs]
      unfold nfkc
      rw [key]

theorem collapseGo_dup (c : ℕ) (hc : isSpace c = true) (v : Str) :
    ∀ (u : Str) (b : Bool), collapseGo b (u ++ c :: c :: v) = collapseGo b (u ++ c :: v) := by
  intro u
  induction u with
  | nil =>
    intro b
    simp only [List.nil_append, collapseGo, hc, if_true]
  | cons d ds ih =>
    intro b
    simp only [List.cons_append, collapseGo]
    by_cases hd : isSpace d
    · by_cases hb : b <;> simp [hd, hb, ih true]
    · simp [hd, ih false]

/-- Whitespace-run invariance of `_casefold_trim`: duplicating a
whitespace character does not change the canonical text. -/
theorem casefoldTrim_dup (u v : Str) (c : ℕ) (hc : isSpace c = true) :
    casefoldTrim (some (u ++ c :: c :: v)) = casefoldTrim (some (u ++ c :: v)) := by
  have h1 : u ++ c :: c :: v ≠ [] := by simp
  have h2 : u ++ c :: v ≠ [] := by simp
  simp only [casefoldTrim, if_neg h1, if_neg h2]
  unfold nfkc collapseWs
  rw [collapseGo_dup c hc v u false]

theorem alwaysSafe_facts (c : ℕ) (h : alwaysSafe c = true) :
    c ≠ 37 ∧ c ≠ 43 ∧ c ≠ 38 ∧ c ≠ 61 ∧ c < 128 := by
  simp only [alwaysSafe, isAlpha, isDigit, Bool.or_eq_true, Bool.and_eq_true,
    decide_eq_true_eq, beq_iff_eq] at h
  omega

theorem plusToSpace_id (t : Str) (h : ∀ c ∈ t, c ≠ 43) : plusToSpace t = t := by
  unfold plusToSpace
  rw [List.map_congr_left (fun a ha => if_neg (h a ha))]
  exact List.map_id t

theorem unquote_plusToSpace_id (t : Str) (h : qtokWf t) : unquote (plusToSpace t) = t := by
  rw [plusToSpace_id t (fun c hc => (alwaysSafe_facts c (h c hc)).2.1),
    unquote_no_percent t (fun c hc => (alwaysSafe_facts c (h c hc)).1)]

theorem utf8Encode_id (t : Str) (h : ∀ c ∈ t, c < 128) : utf8Encode t = t := by
  induction t with
  | nil => rfl
  | cons c cs ih =>
    unfold utf8Encode
    rw [if_pos (h c (by simp)), ih (fun x hx => h x (by simp [hx]))]
    rfl

theorem flatMap_quoteByte_id (t : Str) (h : qtokWf t) : t.flatMap quoteByte = t := by
  induction t with
  | nil => rfl
  | cons c cs ih =>
    rw [List.flatMap_cons,
      show quoteByte c = [c] from by unfold quoteByte; rw [if_pos (h c (by simp))],
      ih (fun x hx => h x (by simp [hx]))]
    rfl

theorem quotePlus_id (t : Str) (h : qtokWf t) : quotePlus t = t := by
  unfold quotePlus
  rw [utf8Encode_id t (fun c hc => (alwaysSafe_facts c (h c hc)).2.2.2.2),
    flatMap_quoteByte_id t h]

theorem urlencodePairs_id (ps : List (Str × Str)) (h : pairsWf ps) :
    urlencodePairs ps = buildQuery ps := by
  unfold urlencodePairs buildQuery
  congr 1
  apply List.map_congr_left
  intro kv hkv
  rw [quotePlus_id kv.1 (h kv hkv).1, quotePlus_id kv.2 (h kv hkv).2]
  simp

theorem mem_intersperse {α : Type} (sep x : α) :
    ∀ (l : List α), x ∈ l.intersperse sep → x = sep ∨ x ∈ l := by
  intro l
  induction l with
  | nil => intro hx; simp at hx
  | cons a l ih =>
    intro hx
    cases l with
    | nil => simp at hx; simp [hx]
    | cons b tl =>
      rw [List.intersperse_cons_cons] at hx
      rcases List.mem_cons.mp hx with rfl | hx
      · simp
      · rcases List.mem_cons.mp hx with rfl | hx
        · simp
        · rcases ih hx with h | h
          · exact Or.inl h
          · exact Or.inr (by simp [h])

theorem mem_intercalate {α : Type} (sep : List α) (ls : List (List α)) (c : α)
    (hc : c ∈ List.intercalate sep ls) : c ∈ sep ∨ ∃ l ∈ ls, c ∈ l := by
  unfold List.intercalate at hc
  rcases List.mem_flatten.mp hc with ⟨l, hl, hcl⟩
  rcases mem_intersperse sep l ls hl with rfl | h
  · exact Or.inl hcl
  · exact Or.inr ⟨l, h, hcl⟩

theorem buildQuery_chars (ps : List (Str × Str)) (h : pairsWf ps) :
    ∀ c ∈ buildQuery ps, (alwaysSafe c || c == 38 || c == 61) = true := by
  intro c hc
  rcases mem_intercalate [38] _ c hc with hs | ⟨l, hl, hcl⟩
  · rcases List.mem_singleton.mp hs with rfl
    simp
  · rcases List.mem_map.mp hl with ⟨kv, hkv, rfl⟩
    rcases List.mem_append.mp hcl with hck | hcv
    · simp [(h kv hkv).1 c hck]
    · rcases List.mem_cons.mp hcv with rfl | hcv
      · simp
      · simp [(h kv hkv).2 c hcv]

theorem filterMap_qsl_parts (ps : List (Str × Str)) (h : pairsWf ps) :
    (ps.map (fun p => p.1 ++ 61 :: p.2)).filterMap (fun nv =>
      if nv = [] then none
      else
        let name := nv.takeWhile (fun c => c ≠ 61)
        let value := if name.length = nv.length then [] else nv.drop (name.length + 1)
        some (unquote (plusToSpace name), unquote (plusToSpace value))) = ps := by
  induction ps with
  | nil => rfl
  | cons kv ps' ih =>
    rw [List.map_cons, List.filterMap_cons]
    have hne : kv.1 ++ 61 :: kv.2 ≠ [] := by simp
    have htake : (kv.1 ++ 61 :: kv.2).takeWhile (fun c => decide (c ≠ 61)) = kv.1 :=
      takeWhile_all_append _ _ _ _
        (fun a ha => decide_eq_true (alwaysSafe_facts a ((h kv (by simp)).1 a ha)).2.2.2.1)
        (by simp)
    have hlen : ¬(kv.1.length = (kv.1 ++ 61 :: kv.2).length) := by
      simp
    have hdrop : (kv.1 ++ 61 :: kv.2).drop (kv.1.length + 1) = kv.2 := drop_left_cons _ _ _
    simp only [if_neg hne, htake, hlen, Bool.false_eq_true, if_false, hdrop]
    rw [unquote_plusToSpace_id kv.1 (h kv (by simp)).1,
      unquote_plusToSpace_id kv.2 (h kv (by simp)).2]
    rw [ih (fun x hx => h x (by simp [hx]))]

theorem parseQsl_buildQuery (ps : List (Str × Str)) (h : pairsWf ps) :
    parseQsl (buildQuery ps) = ps := by
  cases ps with
  | nil => rfl
  | cons p ps' =>
    have hx : ∀ l ∈ (p :: ps').map (fun p => p.1 ++ 61 :: p.2), (38 : ℕ) ∉ l := by
      intro l hl hmem
      rcases List.mem_map.mp hl with ⟨kv, hkv, rfl⟩
      rcases List.mem_append.mp hmem with hc | hc
      · exact (alwaysSafe_facts 38 ((h kv hkv).1 38 hc)).2.2.1 rfl
      · rcases List.mem_cons.mp hc with h61 | hc
        · exact absurd h61 (by decide)
        · exact (alwaysSafe_facts 38 ((h kv hkv).2 38 hc)).2.2.1 rfl
    have hsplit : (buildQuery (p :: ps')).splitOn 38 = (p :: ps').map (fun p => p.1 ++ 61 :: p.2) :=
      List.splitOn_intercalate _ 38 hx (by simp)
    have hne : buildQuery (p :: ps') ≠ [] := by
      intro h0
      have h1 := hsplit
      rw [h0] at h1
      have h2 : ([] : Str).splitOn 38 = [[]] := rfl
      rw [h2] at h1
      have : ([] : Str) = p.1 ++ 61 :: p.2 := by
        have := congrArg List.head? h1
        simpa using this
      simp at this
    unfold parseQsl
    rw [if_neg hne, hsplit]
    exact filterMap_qsl_parts (p :: ps') h

theorem lowerChar_idem (c : ℕ) : lowerChar (lowerChar c) = lowerChar c := by
  simp only [lowerChar]
  split <;> (try split) <;> omega

theorem lowerStr_idem (s : Str) : lowerStr (lowerStr s) = lowerStr s := by
  simp only [lowerStr, List.map_map]
  exact List.map_congr_left fun a _ => lowerChar_idem a

theorem buildUrl_ne_nil (scheme host path q : Str) : buildUrl scheme host path q ≠ [] := by
  cases scheme <;> simp [buildUrl]

theorem buildUrl_mem (scheme host path q : Str) (c : ℕ) (hc : c ∈ buildUrl scheme host path q) :
    c ∈ scheme ∨ c ∈ host ∨ c ∈ path ∨ c ∈ q ∨ c = 58 ∨ c = 47 ∨ c = 63 := by
  simp only [buildUrl, List.mem_append, List.mem_cons] at hc
  by_cases hq : q = []
  · rw [if_pos hq] at hc
    simp at hc
    tauto
  · rw [if_neg hq] at hc
    simp at hc
    tauto

theorem buildUrl_no_percent (scheme host path q : Str)
    (hsA : ∀ c ∈ scheme, isAlpha c = true)
    (hh : ∀ c ∈ host, isHostChar c = true)
    (hpC : ∀ c ∈ path, isPathChar c = true)
    (hqC : ∀ c ∈ q, (alwaysSafe c || c == 38 || c == 61) = true) :
    ∀ c ∈ buildUrl scheme host path q, c ≠ 37 := by
  intro c hc
  rcases buildUrl_mem _ _ _ _ c hc with h | h | h | h | h | h | h
  · have := hsA c h
    simp only [isAlpha, Bool.or_eq_true, Bool.and_eq_true, decide_eq_true_eq] at this
    omega
  · have := hh c h
    simp only [isHostChar, isAlpha, isDigit, Bool.or_eq_true, Bool.and_eq_true,
      decide_eq_true_eq, beq_iff_eq] at this
    omega
  · have := hpC c h
    simp only [isPathChar, isAlpha, isDigit, Bool.or_eq_true, Bool.and_eq_true,
      decide_eq_true_eq, beq_iff_eq] at this
    omega
  · exact (qchar_ne c (hqC c h)).2.2.1
  · omega
  · omega
  · omega

/-- What `_normalize_url` produces on a well-formed
`scheme://host<path>?<query>` URL: lowercased scheme, lowercased host
with one leading `www.` stripped, the path with a bare `/` dropped, and
the re-encoded query with tracking parameters removed. -/
theorem normalizeUrl_buildUrl (scheme host path : Str) (ps : List (Str × Str))
    (hs0 : scheme ≠ []) (hsA : ∀ c ∈ scheme, isAlpha c = true)
    (hh : ∀ c ∈ host, isHostChar c = true)
    (hp0 : path = [] ∨ ∃ p', path = 47 :: p')
    (hpC : ∀ c ∈ path, isPathChar c = true)
    (hps : pairsWf ps) :
    normalizeUrl (some (buildUrl scheme host path (buildQuery ps))) =
      urlunsplit (lowerStr scheme)
        (if (lowerStr host).take 4 = str "www." then (lowerStr host).drop 4 else lowerStr host)
        (if path = [47] then [] else path)
        (urlencodePairs (ps.filter fun kv => !isTrackingKey kv.1)) [] := by
  have hq := buildQuery_chars ps hps
  have hne : buildUrl scheme host path (buildQuery ps) ≠ [] := buildUrl_ne_nil _ _ _ _
  have huq : unquote (buildUrl scheme host path (buildQuery ps))
      = buildUrl scheme host path (buildQuery ps) :=
    unquote_no_percent _ (buildUrl_no_percent _ _ _ _ hsA hh hpC hq)
  have hsplitE := urlsplitE_buildUrl scheme host path (buildQuery ps) hs0 hsA hh hp0 hpC hq
  have hred : normalizeUrl (some (buildUrl scheme host path (buildQuery ps))) =
      urlunsplit (lowerStr (lowerStr scheme))
        (if (lowerStr host).take 4 = str "www." then (lowerStr host).drop 4 else lowerStr host)
        (if path = [47] then [] else path)
        (urlencodePairs ((parseQsl (buildQuery ps)).filter fun kv => !isTrackingKey kv.1)) [] := by
    simp only [normalizeUrl]
    rw [if_neg hne, huq, hsplitE]
  rw [hred, lowerStr_idem, parseQsl_buildQuery ps hps]

theorem makeHash_key_congr (e1 e2 : Event) (now : PyDateTime)
    (h : canonKey e1 now = canonKey e2 now) :
    (makeHash e1 now).1 = (makeHash e2 now).1 := by
  simp only [makeHash]
  rw [h]

theorem canonKey_first_url (e : Event) (now : PyDateTime) (u : Str) :
    canonKey { e with first_url := some u } now =
      { canonKey e now with
        url := normalizeUrl (pyOr (pyOr (some u) e.urls.head?) e.url) } := rfl

theorem makeHash_url_congr (e : Event) (now : PyDateTime) (u1 u2 : Str)
    (h1 : u1 ≠ []) (h2 : u2 ≠ [])
    (h : normalizeUrl (some u1) = normalizeUrl (some u2)) :
    (makeHash { e with first_url := some u1 } now).1
      = (makeHash { e with first_url := some u2 } now).1 := by
  apply makeHash_key_congr
  rw [canonKey_first_url, canonKey_first_url]
  rw [show pyOr (some u1) e.urls.head? = some u1 by simp [pyOr, h1],
    show pyOr (some u2) e.urls.head? = some u2 by simp [pyOr, h2]]
  rw [show pyOr (some u1) e.url = some u1 by simp [pyOr, h1],
    show pyOr (some u2) e.url = some u2 by simp [pyOr, h2]]
  rw [h]

theorem casefoldTrim_pyOr_map {g : ℕ → ℕ} (hg : ∀ c, lowerChar (g c) = lowerChar c)
    (a b : Option Str) :
    casefoldTrim (pyOr (a.map (List.map g)) (b.map (List.map g))) = casefoldTrim (pyOr a b) := by
  have hb : casefoldTrim (b.map (List.map g)) = casefoldTrim b := by
    cases b with
    | none => rfl
    | some s => exact casefoldTrim_map hg s
  cases a with
  | none => exact hb
  | some s =>
    by_cases hs : s = []
    · subst hs
      exact hb
    · have hs' : s.map g ≠ [] := by simp [hs]
      show casefoldTrim (pyOr (some (s.map g)) (Option.map (List.map g) b))
        = casefoldTrim (pyOr (some s) b)
      rw [show pyOr (some (s.map g)) (Option.map (List.map g) b) = some (s.map g) by
          simp [pyOr, hs'],
        show pyOr (some s) b = some s by simp [pyOr, hs]]
      exact casefoldTrim_map hg s

theorem canonKey_textfields (e : Event) (now : PyDateTime) (a b t hd : Option Str) :
    canonKey { e with source := a, source_name := b, title := t, headline := hd } now =
      { canonKey e now with
        source := casefoldTrim (pyOr a b)
        title := casefoldTrim (pyOr t hd) } := rfl

theorem canonKey_title (e : Event) (now : PyDateTime) (t : Option Str) :
    canonKey { e with title := t } now =
      { canonKey e now with title := casefoldTrim (pyOr t e.headline) } := rfl

theorem lowerStr_www_append (host : Str) :
    lowerStr (str "www." ++ host) = str "www." ++ lowerStr host := by
  simp only [lowerStr, List.map_append]
  rw [show List.map lowerChar (str "www.") = str "www." by decide]

theorem normalizeUrl_www (scheme host path : Str) (ps : List (Str × Str))
    (hs0 : scheme ≠ []) (hsA : ∀ c ∈ scheme, isAlpha c = true)
    (hh : ∀ c ∈ host, isHostChar c = true)
    (hp0 : path = [] ∨ ∃ p', path = 47 :: p')
    (hpC : ∀ c ∈ path, isPathChar c = true)
    (hps : pairsWf ps)
    (hw : (lowerStr host).take 4 ≠ str "www.") :
    normalizeUrl (some (buildUrl scheme (str "www." ++ host) path (buildQuery ps)))
      = normalizeUrl (some (buildUrl scheme host path (buildQuery ps))) := by
  have hwww : str "www." = ([119, 119, 119, 46] : Str) := by decide
  have hh' : ∀ c ∈ str "www." ++ host, isHostChar c = true := by
    intro c hc
    rcases List.mem_append.mp hc with h | h
    · rw [hwww] at h
      rcases List.mem_cons.mp h with rfl | h
      · decide
      rcases List.mem_cons.mp h with rfl | h
      · decide
      rcases List.mem_cons.mp h with rfl | h
      · decide
      rcases List.mem_cons.mp h with rfl | h
      · decide
      exact absurd h (List.not_mem_nil c)
    · exact hh c h
  rw [normalizeUrl_buildUrl scheme (str "www." ++ host) path ps hs0 hsA hh' hp0 hpC hps,
    normalizeUrl_buildUrl scheme host path ps hs0 hsA hh hp0 hpC hps]
  rw [lowerStr_www_append]
  rw [if_pos (show (str "www." ++ lowerStr host).take 4 = str "www." from rfl), if_neg hw]
  rw [show (str "www." ++ lowerStr host).drop 4 = lowerStr host from rfl]

/-- C1: two events with equal canonical keys produce equal fingerprints,
and the fingerprint is invariant under letter-case changes of the text
fields, surrounding whitespace and whitespace-run collapse on the title,
URL scheme/host letter case, tracking query parameters, and — provided
the remaining host does not itself begin with `www.` — one leading
`www.` host prefix. -/
theorem fingerprint_equiv_c1 :
    (∀ (e1 e2 : Event) (now : PyDateTime),
      canonKey e1 now = canonKey e2 now → (makeHash e1 now).1 = (makeHash e2 now).1) ∧
    (∀ (g : ℕ → ℕ), (∀ c, lowerChar (g c) = lowerChar c) →
      ∀ (e : Event) (now : PyDateTime),
      (makeHash { e with
          source := e.source.map (List.map g)
          source_name := e.source_name.map (List.map g)
          title := e.title.map (List.map g)
          headline := e.headline.map (List.map g) } now).1 = (makeHash e now).1) ∧
    (∀ (e : Event) (now : PyDateTime) (pre post s : Str),
      (∀ c ∈ pre, isSpace c = true) → (∀ c ∈ post, isSpace c = true) → s ≠ [] →
      (makeHash { e with title := some (pre ++ s ++ post) } now).1
        = (makeHash { e with title := some s } now).1) ∧
    (∀ (e : Event) (now : PyDateTime) (u v : Str) (c : ℕ), isSpace c = true →
      (makeHash { e with title := some (u ++ c :: c :: v) } now).1
        = (makeHash { e with title := some (u ++ c :: v) } now).1) ∧
    (∀ (e : Event) (now : PyDateTime) (scheme₁ scheme₂ host₁ host₂ path : Str)
      (ps : List (Str × Str)),
      scheme₁ ≠ [] → (∀ c ∈ scheme₁, isAlpha c = true) →
      scheme₂ ≠ [] → (∀ c ∈ scheme₂, isAlpha c = true) →
      (∀ c ∈ host₁, isHostChar c = true) → (∀ c ∈ host₂, isHostChar c = true) →
      (path = [] ∨ ∃ p', path = 47 :: p') → (∀ c ∈ path, isPathChar c = true) →
      pairsWf ps →
      lowerStr scheme₁ = lowerStr scheme₂ → lowerStr host₁ = lowerStr host₂ →
      (makeHash { e with first_url := some (buildUrl scheme₁ host₁ path (buildQuery ps)) } now).1
        = (makeHash { e with first_url := some (buildUrl scheme₂ host₂ path (buildQuery ps)) } now).1) ∧
    (∀ (e : Event) (now : PyDateTime) (scheme host path : Str) (ps₁ ps₂ : List (Str × Str)),
      scheme ≠ [] → (∀ c ∈ scheme, isAlpha c = true) →
      (∀ c ∈ host, isHostChar c = true) →
      (path = [] ∨ ∃ p', path = 47 :: p') → (∀ c ∈ path, isPathChar c = true) →
      pairsWf ps₁ → pairsWf ps₂ →
      ps₁.filter (fun kv => !isTrackingKey kv.1) = ps₂.filter (fun kv => !isTrackingKey kv.1) →
      (makeHash { e with first_url := some (buildUrl scheme host path (buildQuery ps₁)) } now).1
        = (makeHash { e with first_url := some (buildUrl scheme host path (buildQuery ps₂)) } now).1) ∧
    (∀ (e : Event) (now : PyDateTime) (scheme host path : Str) (ps : List (Str × Str)),
      scheme ≠ [] → (∀ c ∈ scheme, isAlpha c = true) →
      (∀ c ∈ host, isHostChar c = true) →
      (path = [] ∨ ∃ p', path = 47 :: p') → (∀ c ∈ path, isPathChar c = true) →
      pairsWf ps →
      (lowerStr host).take 4 ≠ str "www." →
      (makeHash { e with
          first_url := some (buildUrl scheme (str "www." ++ host) path (buildQuery ps)) } now).1
        = (makeHash { e with
            first_url := some (buildUrl scheme host path (buildQuery ps)) } now).1) := by
  refine ⟨?_, ?_, ?_, ?_, ?_, ?_, ?_⟩
  · exact fun e1 e2 now h => makeHash_key_congr e1 e2 now h
  · intro g hg e now
    apply makeHash_key_congr
    rw [canonKey_textfields e now (e.source.map (List.map g)) (e.source_name.map (List.map g))
      (e.title.map (List.map g)) (e.headline.map (List.map g))]
    rw [casefoldTrim_pyOr_map hg e.source e.source_name,
      casefoldTrim_pyOr_map hg e.title e.headline]
    rfl
  · intro e now pre post s hpre hpost hs
    apply makeHash_key_congr
    have hne1 : pre ++ s ++ post ≠ [] := by
      intro h0
      exact hs (List.append_eq_nil.mp (List.append_eq_nil.mp h0).1).2
    rw [canonKey_title e now (some (pre ++ s ++ post)), canonKey_title e now (some s)]
    rw [show pyOr (some (pre ++ s ++ post)) e.headline = some (pre ++ s ++ post) by
        simp only [pyOr, if_neg hne1],
      show pyOr (some s) e.headline = some s by simp only [pyOr, if_neg hs]]
    rw [casefoldTrim_pad pre post s hpre hpost]
  · intro e now u v c hc
    apply makeHash_key_congr
    have hne1 : u ++ c :: c :: v ≠ [] := by simp
    have hne2 : u ++ c :: v ≠ [] := by simp
    rw [canonKey_title e now (some (u ++ c :: c :: v)), canonKey_title e now (some (u ++ c :: v))]
    rw [show pyOr (some (u ++ c :: c :: v)) e.headline = some (u ++ c :: c :: v) by
        simp only [pyOr, if_neg hne1],
      show pyOr (some (u ++ c :: v)) e.headline = some (u ++ c :: v) by
        simp only [pyOr, if_neg hne2]]
    rw [casefoldTrim_dup u v c hc]
  · intro e now s₁ s₂ h₁ h₂ path ps hs10 hs1A hs20 hs2A hh1 hh2 hp0 hpC hps hsl hhl
    apply makeHash_url_congr e now _ _ (buildUrl_ne_nil _ _ _ _) (buildUrl_ne_nil _ _ _ _)
    rw [normalizeUrl_buildUrl s₁ h₁ path ps hs10 hs1A hh1 hp0 hpC hps,
      normalizeUrl_buildUrl s₂ h₂ path ps hs20 hs2A hh2 hp0 hpC hps, hsl, hhl]
  · intro e now scheme host path ps₁ ps₂ hs0 hsA hh hp0 hpC hps1 hps2 hfil
    apply makeHash_url_congr e now _ _ (buildUrl_ne_nil _ _ _ _) (buildUrl_ne_nil _ _ _ _)
    rw [normalizeUrl_buildUrl scheme host path ps₁ hs0 hsA hh hp0 hpC hps1,
      normalizeUrl_buildUrl scheme host path ps₂ hs0 hsA hh hp0 hpC hps2, hfil]
  · intro e now scheme host path ps hs0 hsA hh hp0 hpC hps hw
    apply makeHash_url_congr e now _ _ (buildUrl_ne_nil _ _ _ _) (buildUrl_ne_nil _ _ _ _)
    exact normalizeUrl_www scheme host path ps hs0 hsA hh hp0 hpC hps hw

/-- C1 counterexample: two events whose URLs differ only by one leading
`www.` on the host (`www.www.x.com` vs `www.x.com`) get different
fingerprints — `_normalize_url` strips exactly one `www.`, so the two
hosts normalize to `www.x.com` and `x.com` respectively. -/
theorem fingerprint_www_counterexample_c1 :
    str "http://www.www.x.com/a" = str "http://" ++ str "www." ++ str "www.x.com/a" ∧
    str "http://www.x.com/a" = str "http://" ++ str "www.x.com/a" ∧
    normalizeUrl (some (str "http://www.www.x.com/a")) = str "http://www.x.com/a" ∧
    normalizeUrl (some (str "http://www.x.com/a")) = str "http://x.com/a" ∧
    (makeHash
        { title := some (str "t")
          source := some (str "s")
          first_url := some (str "http://www.www.x.com/a")
          event_datetime_utc := some (str "2025-10-05T06:20:00Z") }
        { year := 2026, month := 1, day := 1, hour := 0, minute := 0, second := 0,
          tz := some 0 }).1
    ≠ (makeHash
        { title := some (str "t")
          source := some (str "s")
          first_url := some (str "http://www.x.com/a")
          event_datetime_utc := some (str "2025-10-05T06:20:00Z") }
        { year := 2026, month := 1, day := 1, hour := 0, minute := 0, second := 0,
          tz := some 0 }).1 := by
  refine ⟨by decide, by decide, by decide, by decide, by decide⟩

theorem fingerprint_equiv_c1_witness :
    (makeHash { title := some (str "AbC"), source := some (str "News") }
        { year := 2025, month := 10, day := 5, hour := 6, minute := 0, second := 0,
          tz := some 0 }).1
      = (makeHash { title := some (str "  abc"), source := some (str "News") }
        { year := 2025, month := 10, day := 5, hour := 6, minute := 0, second := 0,
          tz := some 0 }).1 ∧
    (makeHash
        { title := some (str "t")
          first_url := some (buildUrl (str "http") (str "www." ++ str "x.com") []
            (buildQuery [])) }
        { year := 2025, month := 10, day := 5, hour := 6, minute := 0, second := 0,
          tz := some 0 }).1
      = (makeHash
        { title := some (str "t")
          first_url := some (buildUrl (str "http") (str "x.com") [] (buildQuery [])) }
        { year := 2025, month := 10, day := 5, hour := 6, minute := 0, second := 0,
          tz := some 0 }).1 := by
  constructor
  · exact fingerprint_equiv_c1.1 _ _ _ (by decide)
  · exact fingerprint_equiv_c1.2.2.2.2.2.2 { title := some (str "t") }
      { year := 2025, month := 10, day := 5, hour := 6, minute := 0, second := 0,
        tz := some 0 }
      (str "http") (str "x.com") [] []
      (by decide) (by decide) (by decide) (Or.inl rfl) (by decide)
      (fun kv h => absurd h (List.not_mem_nil kv)) (by decide)
